import Mathlib

/-!
Verification of the Bitrix synchronization engine
(`src/plugins/bitrix/src/sync.ts`).

JavaScript objects are embedded as association lists of string keys to
`Val` values; `undefined` reads of missing keys are explicit.  The target
document store is a list of such objects plus a side table of mixin rows.
Write operations are recorded in the order they are issued and tagged by
channel: operations issued through the `apply`-batch (`applyOp.*`) are
durable only once `commit` runs, operations issued directly through the
client (`client.remove`) are durable immediately, and blob uploads are
HTTP calls recorded separately.
-/

/-- A JavaScript value: `null`, `undefined`, strings, integers, booleans. -/
inductive Val where
  | vnull
  | vundef
  | vstr (s : String)
  | vint (n : Int)
  | vbool (b : Bool)
deriving DecidableEq, Repr

/-- A JavaScript object: an association list from keys to values
(keys of a real JS object are unique; `Nodup` hypotheses state this where
a proof needs it). -/
abbrev Obj := List (String × Val)

/-- Reading a property: a missing key yields `undefined`. -/
def getF : Obj → String → Val
  | [], _ => .vundef
  | (k, v) :: rest, key => if k = key then v else getF rest key

/-- Does the object carry the key? -/
def hasKey : Obj → String → Bool
  | [], _ => false
  | (k, _) :: rest, key => k = key || hasKey rest key

/-- Property assignment `o[key] = v`: replaces the binding in place when
the key exists (keys of a JS object are unique, so replacing the first
binding is assignment), appends at the end otherwise (JS insertion
order). -/
def setF : Obj → String → Val → Obj
  | [], key, v => [(key, v)]
  | (k, w) :: rest, key, v =>
    if k = key then (key, v) :: rest else (k, w) :: setF rest key v

/-- Applying a `DocumentUpdate` to a document object
(`TxProcessor.applyUpdate`): assign every field of the update. -/
def applyUpdate (doc upd : Obj) : Obj :=
  upd.foldl (fun d kv => setF d kv.1 kv.2) doc

/-- `v != null` in JS: false exactly for `null` and `undefined`. -/
def nonNull : Val → Bool
  | .vnull => false
  | .vundef => false
  | _ => true

/-- The keys skipped by the field diff (sync.ts lines 45, 75). -/
def skipKeys : List String :=
  ["_class", "_id", "modifiedBy", "modifiedOn", "space", "attachedTo", "attachedToClass"]

/-- The document update computed by `updateDoc`/`updateMixin`
(sync.ts lines 43-52, 73-82): a field of `raw` enters the update iff its
key is not in the skip list, the stored value differs (`!deepEqual`), and
the incoming value is non-null. -/
def fieldDiff (doc raw : Obj) : Obj :=
  raw.filter fun kv =>
    !(skipKeys.contains kv.1) && !(getF doc kv.1 == kv.2) && nonNull kv.2

/-- A write operation issued by the engine. -/
inductive WOp where
  | update (docId : Val) (upd : Obj)
  | createDoc (docId cls space mOn mBy : Val) (data : Obj)
  | createMixin (docId : Val) (mixin : String) (data : Obj)
  | updateMixin (docId : Val) (mixin : String) (upd : Obj)
  | addCollection (cls space attachedTo attachedToCls collection docId mOn mBy : Val) (data : Obj)
  | remove (docId : Val)
  | upload (name : Val)
deriving DecidableEq, Repr

/-- The target document store: documents plus mixin rows
(docId, mixin class, mixin data). -/
structure Store where
  docs : List Obj
  mixins : List (Val × String × Obj)
deriving DecidableEq, Repr

/-- `hierarchy.hasMixin doc m`: is there a mixin row for the document? -/
def hasMixin (st : Store) (docId : Val) (m : String) : Bool :=
  (st.mixins.find? fun r => r.1 == docId && r.2.1 == m).isSome

/-- The data of a mixin attached to a document (empty when absent). -/
def getMixinData (st : Store) (docId : Val) (m : String) : Obj :=
  match st.mixins.find? (fun r => r.1 == docId && r.2.1 == m) with
  | some r => r.2.2
  | none => []

/-- `hierarchy.as doc m`: a proxy reading mixin properties first and
falling back to the document's own properties. -/
def asMixin (st : Store) (d : Obj) (m : String) : Obj :=
  getMixinData st (getF d "_id") m ++ d

/-- Effect of one write operation on the store. -/
def applyBOp (st : Store) : WOp → Store
  | .update id u =>
    { st with docs := st.docs.map fun d => if getF d "_id" == id then applyUpdate d u else d }
  | .createDoc id cls space mOn mBy data =>
    { st with docs := st.docs ++
        [setF (setF (setF (setF (setF data "_id" id) "_class" cls) "space" space)
          "modifiedOn" mOn) "modifiedBy" mBy] }
  | .createMixin id m data =>
    { st with mixins := st.mixins ++ [(id, m, data)] }
  | .updateMixin id m u =>
    { st with mixins := st.mixins.map fun r =>
        if r.1 == id && r.2.1 == m then (r.1, r.2.1, applyUpdate r.2.2 u) else r }
  | .addCollection cls space attachedTo attachedToCls collection id mOn mBy data =>
    { st with docs := st.docs ++
        [setF (setF (setF (setF (setF (setF (setF (setF data "_id" id) "_class" cls)
          "space" space) "attachedTo" attachedTo) "attachedToClass" attachedToCls)
          "collection" collection) "modifiedOn" mOn) "modifiedBy" mBy] }
  | .remove id =>
    { docs := st.docs.filter (fun d => !(getF d "_id" == id)),
      mixins := st.mixins.filter (fun r => !(r.1 == id)) }
  | .upload _ => st

/-- Applying a list of operations in order (the `commit` of an
apply-batch, or a sequence of direct client operations). -/
def applyBatch (st : Store) (ops : List WOp) : Store :=
  ops.foldl applyBOp st

/-- `client.findAll cl { attachedTo }`. -/
def findAllAttached (st : Store) (cl : Val) (attachedTo : Val) : List Obj :=
  st.docs.filter fun d => getF d "_class" == cl && getF d "attachedTo" == attachedTo

/-- The bitrix sync mixin (`bitrix.mixin.BitrixSyncDoc`). -/
def syncMixinName : String := "bitrix:mixin:BitrixSyncDoc"

/-- `attachment.class.Attachment`. -/
def attachmentClassName : Val := .vstr "attachment:class:Attachment"

/-- `updateDoc` (sync.ts lines 41-58): compute the field diff; when it is
non-empty issue one `update` and apply it to the in-memory document.
Returns the (possibly mutated) document and the issued operations. -/
def updateDoc (doc raw : Obj) : Obj × List WOp :=
  let u := fieldDiff doc raw
  if u = [] then (doc, []) else (applyUpdate doc u, [.update (getF doc "_id") u])

/-- `updateMixin` (sync.ts lines 60-87): create the mixin wholesale when
the document does not carry it, otherwise issue a diff update (the
in-memory object is not mutated). `doc` is the `hierarchy.as` proxy. -/
def updateMixin (st : Store) (doc raw : Obj) (m : String) : List WOp :=
  if !(hasMixin st (getF doc "_id") m) then
    [.createMixin (getF doc "_id") m raw]
  else
    let u := fieldDiff doc raw
    if u = [] then [] else [.updateMixin (getF doc "_id") m u]

/-- `updateMixins` (sync.ts lines 305-329): for each mixin of the result,
create it on the document when absent, diff-update it when present. -/
def updateMixins (st : Store) (mixins : List (String × Obj)) (existing : Obj)
    (docu : Obj) : List WOp :=
  mixins.foldl
    (fun acc p =>
      acc ++
        (if !(hasMixin st (getF existing "_id") p.1) then
          [WOp.createMixin (getF docu "_id") p.1 p.2]
        else
          updateMixin st (asMixin st existing p.1) p.2 p.1))
    []

/-- The destructuring `const { bitrixId, rawData, ...data } = valValue`. -/
def stripKeys (o : Obj) : Obj :=
  o.filter fun kv => kv.1 != "bitrixId" && kv.1 != "rawData"

/-- The sync-trait payload written for an attached document
(sync.ts lines 244-248, 270-274). -/
def subMixinData (v : Obj) : Obj :=
  [("type", getF v "type"), ("bitrixId", getF v "bitrixId"), ("rawData", getF v "rawData")]

/-- `updateAttachedDoc` (sync.ts lines 232-279): diff-update an existing
attached document and its sync trait, or `addCollection` + `createMixin`
for a fresh one (with `bitrixId`/`rawData` stripped from the document). -/
def updateAttachedDoc (st : Store) (existing : Option Obj) (valValue : Obj) : List WOp :=
  match existing with
  | some ex =>
    let p := updateDoc ex valValue
    p.2 ++ updateMixin st (asMixin st p.1 syncMixinName) (subMixinData valValue) syncMixinName
  | none =>
    [.addCollection (getF valValue "_class") (getF valValue "space")
      (getF valValue "attachedTo") (getF valValue "attachedToClass")
      (getF valValue "collection") (getF valValue "_id")
      (getF valValue "modifiedOn") (getF valValue "modifiedBy") (stripKeys valValue),
     .createMixin (getF valValue "_id") syncMixinName (subMixinData valValue)]

/-- The sync-trait remote id of a stored document:
`hierarchy.as(it, bitrix.mixin.BitrixSyncDoc).bitrixId`. -/
def bidOf (st : Store) (e : Obj) : Val := getF (asMixin st e syncMixinName) "bitrixId"

/-- `existingByClass.findIndex`/`splice` (sync.ts lines 146-154): find the
first pool element whose sync-trait `bitrixId` equals `bid` and take it
out of the pool. -/
def findByBitrixId (st : Store) (pool : List Obj) (bid : Val) : Option Obj × List Obj :=
  match pool with
  | [] => (none, [])
  | e :: rest =>
    if bidOf st e == bid then (some e, rest)
    else
      let r := findByBitrixId st rest bid
      (r.1, e :: r.2)

/-- The inner loop over pending sub-documents of one class
(sync.ts lines 145-156): match each against the shrinking pool of
existing attached documents and update-or-create; returns the leftover
pool (the orphans) and the batch operations issued. -/
def reconcileVals (st : Store) (docId : Val) (vals pool : List Obj) : List Obj × List WOp :=
  match vals with
  | [] => (pool, [])
  | v :: rest =>
    let r := findByBitrixId st pool (getF v "bitrixId")
    let v' := setF v "attachedTo" docId
    let w := updateAttachedDoc st r.1 v'
    let rec' := reconcileVals st docId rest r.2
    (rec'.1, w ++ rec'.2)

/-- Keys of a `Map` in insertion order (`byClass`, sync.ts lines 133-137). -/
def classList (l : List Obj) : List Val :=
  l.foldl (fun acc d =>
    if acc.contains (getF d "_class") then acc else acc ++ [getF d "_class"]) []

/-- Classes derived from `core.class.AttachedDoc`, and the injected fault
for the attachment `findAll` (modelling a store exception inside step 5). -/
structure Env where
  attachedClasses : List Val
  failAttachFind : Bool
deriving Repr

def isAttachedClass (env : Env) (cl : Val) : Bool := env.attachedClasses.contains cl

/-- One class group of the reconciliation (sync.ts lines 139-163): fetch
the existing attached documents, reconcile, then remove the leftovers —
the removals go through `client.remove`, i.e. the direct channel, and are
applied to the store immediately. -/
def reconcileClass (env : Env) (docId : Val) (extraSync : List Obj)
    (acc : Store × List WOp × List WOp) (cl : Val) : Store × List WOp × List WOp :=
  let (st, batch, direct) := acc
  if isAttachedClass env cl then
    let pool := findAllAttached st cl docId
    let vals := extraSync.filter fun d => getF d "_class" == cl
    let r := reconcileVals st docId vals pool
    let removeOps := r.1.map fun d => WOp.remove (getF d "_id")
    (applyBatch st removeOps, batch ++ r.2, direct ++ removeOps)
  else (st, batch, direct)

/-- The whole sub-document reconciliation (sync.ts lines 139-163). -/
def reconcileAll (env : Env) (st : Store) (docId : Val) (extraSync : List Obj) :
    Store × List WOp × List WOp :=
  (classList extraSync).foldl (reconcileClass env docId extraSync) (st, [], [])

/-- The result of `op()` — the lazily fetched file (`File`). -/
structure FileData where
  name : String
  size : Int
  type : String
  lastModified : Int
deriving DecidableEq, Repr

/-- One pending binary attachment `[ed, op, upd]` (sync.ts line 168).
`fileData = none` models `op()` returning `undefined` or throwing;
`uploadResult = some uuid` models the blob endpoint answering 200 with
`uuid`; `genId` is the `generateId()` drawn for the attachment. -/
structure BlobDesc where
  ed : Obj
  fileData : Option FileData
  genId : Val
  uploadResult : Option Val
deriving DecidableEq, Repr

/-- The `upd` mutator registered in `downloadComments`
(sync.ts lines 701-706): back-fills type, size and name from the fetched
file (the `attachedTo` assignment rewrites the value already stored). -/
def applyUpd (f : FileData) (ed : Obj) : Obj :=
  setF (setF (setF ed "type" (.vstr f.type)) "size" (.vint f.size)) "name" (.vstr f.name)

/-- The metadata finalization after a successful fetch
(sync.ts lines 184-188): the `upd` mutator followed by the explicit
`lastModified`/`size`/`type` assignments. -/
def fetchEd (f : FileData) (ed : Obj) : Obj :=
  setF (setF (setF (applyUpd f ed) "lastModified" (.vint f.lastModified))
    "size" (.vint f.size)) "type" (.vstr f.type)

/-- Does an existing attachment match the pending one by
(name, size, type) (sync.ts line 192)? -/
def nstMatch (ex ed2 : Obj) : Bool :=
  getF ex "name" == getF ed2 "name" && getF ex "size" == getF ed2 "size"
    && getF ex "type" == getF ed2 "type"

/-- Is there an existing attachment carrying the pending one's remote id
(sync.ts lines 169-171)? -/
def blobMatches (st : Store) (existingBlobs : List Obj) (b : BlobDesc) : Bool :=
  (existingBlobs.find? fun it =>
    getF (asMixin st it syncMixinName) "bitrixId" == getF b.ed "bitrixId").isSome

/-- Processing of one pending attachment (sync.ts lines 168-225): skip
when the remote id already exists; otherwise fetch the bytes, scan the
`findAll` snapshot for a (name, size, type) match — updating the first
and removing true duplicates — and only when nothing matched, upload and
create a fresh attachment record. -/
def processBlob (st : Store) (existingBlobs : List Obj)
    (acc : List WOp × List WOp) (b : BlobDesc) : List WOp × List WOp :=
  if blobMatches st existingBlobs b then acc
  else
    match b.fileData with
    | none => acc
    | some f =>
      let ed2 := fetchEd f b.ed
      let scan := existingBlobs.foldl
        (fun (p : List WOp × Bool) ex =>
          if nstMatch ex ed2 then
            if !p.2 then (p.1 ++ updateAttachedDoc st (some ex) ed2, true)
            else (p.1 ++ [WOp.remove (getF ex "_id")], p.2)
          else p)
        (acc.1, false)
      if scan.2 then (scan.1, acc.2)
      else
        match b.uploadResult with
        | none => (scan.1, acc.2 ++ [.upload (getF ed2 "name")])
        | some uuid =>
          let ed3 := setF (setF ed2 "file" uuid) "_id" b.genId
          (scan.1 ++ updateAttachedDoc st none ed3, acc.2 ++ [.upload (getF ed2 "name")])

/-- The attachment phase (sync.ts lines 168-225).  `existingBlobs` is
the one `findAll` snapshot taken before the loop; it is never extended
with attachments created during the loop.  Returns the batch operations
and the uploads performed. -/
def processBlobs (st : Store) (existingBlobs : List Obj) (blobs : List BlobDesc) :
    List WOp × List WOp :=
  blobs.foldl (processBlob st existingBlobs) ([], [])

/-- `ConvertResult` (from utils.ts), as used by `syncDocument`:
the primary document object, mixin payloads, supplier documents, pending
attached sub-documents, the raw remote payload and pending blobs. -/
structure ConvertResult where
  document : Obj
  mixins : List (String × Obj)
  extraDocs : List Obj
  extraSync : List Obj
  rawData : Val
  blobs : List BlobDesc
deriving Repr

/-- The bitrix sync trait payload added to the mixin record
(sync.ts lines 110-115): remote type, remote id, raw payload and the
`Date.now()` sync timestamp. -/
def syncMixinData (res : ConvertResult) (now : Int) : Obj :=
  [("type", getF res.document "type"), ("bitrixId", getF res.document "bitrixId"),
   ("rawData", res.rawData), ("syncTime", Val.vint now)]

/-- `mixins[key] = v` on the copied record (sync.ts lines 107-115). -/
def setMixinEntry (l : List (String × Obj)) (k : String) (v : Obj) : List (String × Obj) :=
  if l.any (·.1 == k) then l.map (fun p => if p.1 = k then (k, v) else p) else l ++ [(k, v)]

/-- The outcome of one `syncDocument` call: the durable store, the
apply-batch operations, the direct client operations (applied to the
store immediately), the uploads, and whether `commit` was reached. -/
structure SyncOut where
  store : Store
  batch : List WOp
  direct : List WOp
  uploads : List WOp
  committed : Bool
deriving Repr

/-- `syncDocument` (sync.ts lines 92-303).  `now` is the value of
`Date.now()` observed for the sync trait.  When `env.failAttachFind` is
set, the `findAll` of existing attachments throws: the outer catch skips
`commit`, so only the direct operations are durable. -/
def syncDocument (env : Env) (st0 : Store) (existing : Option Obj)
    (res : ConvertResult) (now : Int) : SyncOut :=
  let step :=
    match existing with
    | some e =>
      let docu := setF res.document "_id" (getF e "_id")
      let p := updateDoc e docu
      (p.1, docu, p.2)
    | none =>
      (res.document, res.document,
        [WOp.createDoc (getF res.document "_id") (getF res.document "_class")
          (getF res.document "space") (getF res.document "modifiedOn")
          (getF res.document "modifiedBy") (stripKeys res.document)])
  let mainObj := step.1
  let docu := step.2.1
  let wMain := step.2.2
  let docId := getF docu "_id"
  let mixins := setMixinEntry res.mixins syncMixinName (syncMixinData res now)
  let wMix := updateMixins st0 mixins mainObj docu
  let wExtra := res.extraDocs.map fun ed =>
    WOp.createDoc (getF ed "_id") (getF ed "_class") (getF ed "space")
      (getF docu "modifiedOn") (getF docu "modifiedBy") ed
  let recon := reconcileAll env st0 docId res.extraSync
  let st2 := recon.1
  let batch0 := wMain ++ wMix ++ wExtra ++ recon.2.1
  if env.failAttachFind then
    { store := st2, batch := batch0, direct := recon.2.2, uploads := [], committed := false }
  else
    let existingBlobs := findAllAttached st2 attachmentClassName docId
    let pb := processBlobs st2 existingBlobs res.blobs
    let batch := batch0 ++ pb.1
    { store := applyBatch st2 batch, batch := batch, direct := recon.2.2,
      uploads := pb.2, committed := true }

/-- `comment.replaceAll('\n', '\n</br>')` (sync.ts line 335): every
newline is kept and `</br>` is inserted after it. -/
def replNl : List Char → List Char
  | [] => []
  | c :: rest =>
    if c = '\n' then '\n' :: ('<' :: '/' :: 'b' :: 'r' :: '>' :: replNl rest)
    else c :: replNl rest

/-- A character allowed inside a bracket tag: the regex class `[^[\]]`. -/
def tagChar (c : Char) : Bool := c ≠ '[' && c ≠ ']'

/-- `String.includes`: does `hay` contain `needle` as a contiguous run? -/
def containsSub (needle : List Char) : List Char → Bool
  | [] => needle.isEmpty
  | c :: rest => needle.isPrefixOf (c :: rest) || containsSub needle rest

/-- The replacement callback (sync.ts lines 336-379), applied to the
captured tag body `args`; the checks and substring offsets are exactly
those of the source (note: mostly `includes`, not anchored matches). -/
def tagRepl (args : List Char) : List Char :=
  if ("/URL".toList).isPrefixOf args then "</a>".toList
  else if ("URL=".toList).isPrefixOf args then
    "<a href=\"".toList ++ args.drop 4 ++ "\">".toList
  else if containsSub "/FONT".toList args then "</span>".toList
  else if containsSub "FONT".toList args then
    "<span style=\"font: ".toList ++ args.drop 4 ++ ";\">".toList
  else if containsSub "/SIZE".toList args then "</span>".toList
  else if containsSub "SIZE".toList args then
    "<span style=\"font-size: ".toList ++ args.drop 4 ++ ";\">".toList
  else if containsSub "/COLOR".toList args then "</span>".toList
  else if containsSub "COLOR".toList args then
    "<span style=\"color: ".toList ++ args.drop 5 ++ ";\">".toList
  else if containsSub "/IMG".toList args then "\"/>".toList
  else if containsSub "IMG".toList args then
    "<img ".toList ++ args.drop 3 ++ " src=\"".toList
  else if containsSub "/TABLE".toList args then "</table>".toList
  else if containsSub "TABLE".toList args then "<table>".toList
  else '<' :: args ++ ['>']

/-- The global rewrite `replaceAll(/\[(\/?[^[\]]+)]/gi, ...)`
(sync.ts line 336), with explicit fuel so that the kernel can evaluate
it; the fuel only bounds the recursion depth and one unit is spent per
consumed character, so `length l` suffices.  At each `[` followed by one
or more non-bracket characters and a `]`, the whole bracket group is
replaced by the callback result; otherwise the character is copied (the
regex engine advances one position after a failed match attempt). -/
def rtagsF : Nat → List Char → List Char
  | 0, l => l
  | _ + 1, [] => []
  | f + 1, c :: rest =>
    if c = '[' then
      if (rest.takeWhile tagChar).isEmpty then c :: rtagsF f rest
      else
        match rest.dropWhile tagChar with
        | ']' :: rest' => tagRepl (rest.takeWhile tagChar) ++ rtagsF f rest'
        | _ => c :: rtagsF f rest
    else c :: rtagsF f rest

/-- The regex rewrite at adequate fuel. -/
def rtags (l : List Char) : List Char := rtagsF l.length l

/-- `processComment` (sync.ts lines 334-382) on character lists. -/
def processCommentL (l : List Char) : List Char := rtags (replNl l)

/-- `processComment` (sync.ts lines 334-382). -/
def processComment (comment : String) : String :=
  String.mk (processCommentL comment.toList)

/-- `defaultSyncPeriod` (sync.ts line 387): 24 hours in milliseconds. -/
def defaultSyncPeriod : Int := 1000 * 60 * 60 * 24

/-- Observable actions of the per-record loop. -/
inductive LEvent where
  | convert (id : String)
  | download (id : String)
  | merge (id : String)
  | monitor
  | sleep
deriving DecidableEq, Repr

/-- One remote record of a page together with the behaviour of the
external collaborators on it: `conv = none` models `convert` throwing,
`commentThrows` models `downloadComments` throwing. -/
structure RecInfo where
  id : String
  conv : Option ConvertResult
  commentThrows : Bool

/-- The options of the orchestration loop that the modelled claims use
(mapping of a non-organization type: the company → contacts recursion of
sync.ts lines 549-564 is outside the modelled claims). -/
structure LoopOpts where
  env : Env
  limit : Nat
  comments : Bool
  syncPeriod : Option Int
  ofClass : Val

/-- The loop state: durable store, accepted count `added`, the events of
this call, and the accumulated `resultDocs` ids. -/
structure LoopState where
  store : Store
  added : Nat
  events : List LEvent
  resultDocs : List Val
deriving DecidableEq, Repr

/-- The suppression check (sync.ts line 503):
`bd.syncTime !== undefined && bd.syncTime + (syncPeriod ?? default) > syncTime`. -/
def suppressed (o : LoopOpts) (stPage : Store) (d : Obj) (syncTime : Int) : Bool :=
  match getF (asMixin stPage d syncMixinName) "syncTime" with
  | .vint t => t + o.syncPeriod.getD defaultSyncPeriod > syncTime
  | _ => false

/-- The lookup of the previously synced document for a record
(sync.ts lines 498-500): find the fetched document whose sync-trait
`bitrixId` equals the record id. -/
def foundExisting (stPage : Store) (existingDocuments : List Obj) (r : RecInfo) : Option Obj :=
  existingDocuments.find? fun d =>
    getF (asMixin stPage d syncMixinName) "bitrixId" == .vstr r.id

/-- The id pushed onto `resultDocs` (sync.ts lines 538-541): the
existing document's id when a match was found, else the converted
document's id. -/
def mergedResultId (existingDoc : Option Obj) (res : ConvertResult) : Val :=
  match existingDoc with
  | some d => getF d "_id"
  | none => getF res.document "_id"

/-- The inner record loop (sync.ts lines 493-577). `stPage` is the store
snapshot from which `existingDocuments` was fetched; `syncTime` is the
`Date.now()` taken after the page fetch. A record whose conversion or
comment download throws is logged, backoff-slept and skipped; otherwise
the record is counted (`added`), merged via `syncDocument` (which
swallows its own errors and always reports to the monitor) and recorded. -/
def innerLoop (o : LoopOpts) (stPage : Store) (existingDocuments : List Obj)
    (syncTime : Int) : List RecInfo → LoopState → LoopState
  | [], s => s
  | r :: rest, s =>
    let existingDoc := foundExisting stPage existingDocuments r
    let isSupp := match existingDoc with
      | some d => suppressed o stPage d syncTime
      | none => false
    if isSupp then
      let s' := { s with added := s.added + 1, events := s.events ++ [LEvent.monitor] }
      if s'.added ≥ o.limit then s'
      else innerLoop o stPage existingDocuments syncTime rest s'
    else
      match r.conv with
      | none =>
        innerLoop o stPage existingDocuments syncTime rest
          { s with events := s.events ++ [.convert r.id, .sleep] }
      | some res =>
        if o.comments && r.commentThrows then
          innerLoop o stPage existingDocuments syncTime rest
            { s with events := s.events ++ [.convert r.id, .download r.id, .sleep] }
        else
          let out := syncDocument o.env s.store existingDoc res syncTime
          let s' : LoopState :=
            { store := out.store, added := s.added + 1,
              events := s.events ++ [LEvent.convert r.id]
                ++ (if o.comments then [LEvent.download r.id] else [])
                ++ [LEvent.merge r.id, LEvent.monitor],
              resultDocs := s.resultDocs ++ [mergedResultId existingDoc res] }
          if s'.added ≥ o.limit then s'
          else innerLoop o stPage existingDocuments syncTime rest s'

/-- Events of `performSynchronization`/`doPerformSync` above the record
level. -/
inductive PEvent where
  | callCommentFields
  | callOwnerType
  | findEmployees
  | findMappings
  | userSearchCall
  | createEmployee
  | createAccount
  | findTagElements
  | listCall
  | findExisting
  | findCategories
  | inner (e : LEvent)
deriving DecidableEq, Repr

/-- One page answered by the remote list endpoint. -/
structure Page where
  recs : List RecInfo
  next : Option Nat
  total : Nat

/-- The outer page loop of `doPerformSync` (sync.ts lines 470-584):
while `added < limit`, fetch a page, fetch the matching existing
documents and default categories, run the inner loop, and continue while
the remote supplies a `next` cursor.  The sequence of pages the remote
would answer is given up front; an exhausted list stops the loop. -/
def outerLoop (o : LoopOpts) (syncTime : Int) :
    List Page → LoopState → LoopState × List PEvent
  | [], s => (s, [])
  | p :: rest, s =>
    if s.added < o.limit then
      let exDocs := s.store.docs.filter fun d =>
        getF d "_class" == o.ofClass &&
          (p.recs.map (fun r => Val.vstr r.id)).contains
            (getF (asMixin s.store d syncMixinName) "bitrixId")
      let s1 := innerLoop o s.store exDocs syncTime p.recs { s with events := [] }
      let pageEvents := [PEvent.listCall, PEvent.findExisting, PEvent.findCategories]
        ++ s1.events.map PEvent.inner
      let sMerged := { s1 with events := s.events ++ s1.events }
      match p.next with
      | none => (sMerged, pageEvents)
      | some _ =>
        let r := outerLoop o syncTime rest sMerged
        (r.1, pageEvents ++ r.2)
    else (s, [])

/-- One page of the remote user directory (`user.search`). -/
structure BUser where
  id : String
  email : String

structure UserPage where
  result : List BUser
  total : Nat

/-- `Map.set` semantics for the user list. -/
def mapSet (l : List (String × String)) (k v : String) : List (String × String) :=
  if l.any (·.1 == k) then l.map (fun p => if p.1 = k then (k, v) else p) else l ++ [(k, v)]

/-- `synchronizeUsers` (sync.ts lines 755-797): page through the remote
user directory while the map is smaller than the latest reported total
(refreshed after every fetch); match each user to a local account by
email, creating an employee and account when absent. The pages the
remote would answer are given up front. -/
def synchronizeUsers (allEmp : List (String × String)) :
    List UserPage → Nat → List (String × String) → List (String × String) × List PEvent
  | [], _, ul => (ul, [])
  | p :: rest, totalUsers, ul =>
    if ul.length < totalUsers then
      let step := p.result.foldl
        (fun (acc : List (String × String) × List PEvent) u =>
          match allEmp.find? (·.1 == u.email) with
          | some e => (mapSet acc.1 u.id e.2, acc.2)
          | none => (mapSet acc.1 u.id ("account:" ++ u.email),
              acc.2 ++ [.createEmployee, .createAccount]))
        (ul, [])
      let r := synchronizeUsers allEmp rest p.total step.1
      (r.1, [PEvent.userSearchCall] ++ step.2 ++ r.2)
    else (ul, [])

/-- The options of `performSynchronization` that the modelled claims
use, together with the answers of the external collaborators. -/
structure PSyncOpts where
  o : LoopOpts
  space : Option Val
  lookupFields : Option (List String)
  pages : List Page
  userPages : List UserPage
  allEmployee : List (String × String)
  st0 : Store

/-- `doPerformSync` (sync.ts lines 455-589): when the target space is
undefined or the mapping carries no looked-up field mappings, return the
empty list at once; otherwise fetch the tag elements and run the page
loop. -/
def doPerformSync (ps : PSyncOpts) (syncTime : Int) : List Val × List PEvent :=
  if ps.space.isNone || ps.lookupFields.isNone then ([], [])
  else
    let s0 : LoopState := { store := ps.st0, added := 0, events := [], resultDocs := [] }
    let r := outerLoop ps.o syncTime ps.pages s0
    (r.1.resultDocs, [PEvent.findTagElements] ++ r.2)

/-- `performSynchronization` (sync.ts lines 417-453): the up-front
comment-field fetch, owner-type enumeration fetch, employee and mapping
`findAll`s and the user synchronization always run, then `doPerformSync`
takes over. -/
def performSynchronization (ps : PSyncOpts) (syncTime : Int) : List Val × List PEvent :=
  let users := synchronizeUsers ps.allEmployee ps.userPages 1 []
  let d := doPerformSync ps syncTime
  (d.1,
    [PEvent.callCommentFields, PEvent.callOwnerType, PEvent.findEmployees, PEvent.findMappings]
      ++ users.2 ++ d.2)

/-! ### Lemmas about object field access, assignment and diffing -/

theorem hasKey_iff (o : Obj) (k : String) : hasKey o k = true ↔ k ∈ o.map Prod.fst := by
  induction o with
  | nil => simp [hasKey]
  | cons kv rest ih =>
    obtain ⟨a, b⟩ := kv
    simp only [hasKey, Bool.or_eq_true, decide_eq_true_eq, ih, List.map_cons, List.mem_cons]
    exact or_congr_left eq_comm

theorem hasKey_of_mem {o : Obj} {k : String} {v : Val} (h : (k, v) ∈ o) : hasKey o k = true := by
  rw [hasKey_iff]
  exact List.mem_map.mpr ⟨(k, v), h, rfl⟩

theorem getF_setF (o : Obj) (k : String) (v : Val) (k' : String) :
    getF (setF o k v) k' = if k' = k then v else getF o k' := by
  induction o with
  | nil =>
    simp only [setF, getF]
    by_cases h : k = k'
    · simp [h]
    · rw [if_neg h, if_neg (fun hh => h hh.symm)]
  | cons kv rest ih =>
    obtain ⟨a, b⟩ := kv
    simp only [setF]
    by_cases hak : a = k
    · subst hak
      rw [if_pos rfl]
      simp only [getF]
      by_cases h : a = k'
      · rw [if_pos h, if_pos h.symm]
      · rw [if_neg h, if_neg (fun hh => h hh.symm), if_neg h]
    · rw [if_neg hak]
      simp only [getF, ih]
      by_cases h : a = k'
      · have hkk : ¬(k' = k) := fun hh => hak (h.trans hh)
        simp [h, hkk]
      · simp [h]

theorem keys_setF (o : Obj) (k : String) (v : Val) :
    (setF o k v).map Prod.fst =
      if hasKey o k then o.map Prod.fst else o.map Prod.fst ++ [k] := by
  induction o with
  | nil => simp [setF, hasKey]
  | cons kv rest ih =>
    obtain ⟨a, b⟩ := kv
    simp only [setF, hasKey]
    by_cases hak : a = k
    · simp [hak]
    · simp only [if_neg hak, List.map_cons, ih]
      have hd : (decide (a = k)) = false := by simp [hak]
      rw [hd]
      by_cases h2 : hasKey rest k <;> simp [h2]

theorem nodup_keys_setF {o : Obj} (k : String) (v : Val)
    (h : (o.map Prod.fst).Nodup) : ((setF o k v).map Prod.fst).Nodup := by
  rw [keys_setF]
  by_cases hh : hasKey o k
  · simp [hh, h]
  · simp only [hh, if_false, Bool.false_eq_true, ite_false]
    rw [List.nodup_append]
    refine ⟨h, List.nodup_singleton k, ?_⟩
    intro x hx hk
    simp only [List.mem_singleton] at hk
    subst hk
    exact absurd ((hasKey_iff o x).mpr hx) (by simp [hh])

theorem getF_append (a b : Obj) (k : String) :
    getF (a ++ b) k = if hasKey a k then getF a k else getF b k := by
  induction a with
  | nil => simp [getF, hasKey]
  | cons kv rest ih =>
    obtain ⟨x, y⟩ := kv
    simp only [List.cons_append, getF, hasKey]
    by_cases h : x = k
    · simp [h]
    · simp [h, ih]

theorem getF_applyUpdate (doc : Obj) (u : Obj) (hn : (u.map Prod.fst).Nodup) (k : String) :
    getF (applyUpdate doc u) k = if hasKey u k then getF u k else getF doc k := by
  induction u generalizing doc with
  | nil => simp [applyUpdate, hasKey]
  | cons kv rest ih =>
    obtain ⟨a, b⟩ := kv
    simp only [List.map_cons, List.nodup_cons] at hn
    have step : applyUpdate doc ((a, b) :: rest) = applyUpdate (setF doc a b) rest := rfl
    rw [step, ih (setF doc a b) hn.2]
    by_cases h : a = k
    · subst h
      have hrest : hasKey rest a = false := by
        by_contra hc
        simp only [Bool.not_eq_false] at hc
        exact hn.1 ((hasKey_iff rest a).mp hc)
      simp [hasKey, getF, hrest, getF_setF]
    · have hka : ¬(k = a) := fun hh => h hh.symm
      by_cases h2 : hasKey rest k <;>
        simp [hasKey, getF, h, h2, hka, getF_setF]

theorem mem_of_hasKey {o : Obj} {k : String} (h : hasKey o k = true) : (k, getF o k) ∈ o := by
  induction o with
  | nil => simp [hasKey] at h
  | cons kv rest ih =>
    obtain ⟨a, b⟩ := kv
    simp only [hasKey, Bool.or_eq_true, decide_eq_true_eq] at h
    by_cases hak : a = k
    · subst hak
      simp [getF]
    · simp only [getF, if_neg hak]
      exact List.mem_cons_of_mem _ (ih (h.resolve_left hak))

theorem getF_eq_of_mem {o : Obj} {k : String} {v : Val}
    (hn : (o.map Prod.fst).Nodup) (hm : (k, v) ∈ o) : getF o k = v := by
  induction o with
  | nil => simp at hm
  | cons kv rest ih =>
    obtain ⟨a, b⟩ := kv
    simp only [List.map_cons, List.nodup_cons] at hn
    rcases List.mem_cons.mp hm with h | h
    · cases h
      simp [getF]
    · have hak : a ≠ k := by
        intro he
        subst he
        exact hn.1 (List.mem_map.mpr ⟨(a, v), h, rfl⟩)
      simp only [getF, if_neg hak]
      exact ih hn.2 h

theorem fieldDiff_mem {doc raw : Obj} {kv : String × Val} :
    kv ∈ fieldDiff doc raw ↔ kv ∈ raw ∧
      (!(skipKeys.contains kv.1) && !(getF doc kv.1 == kv.2) && nonNull kv.2) = true := by
  simp [fieldDiff, List.mem_filter]

/-- Idempotence of the field diff: once the update computed by the diff
has been applied, diffing the same raw object again yields nothing. -/
theorem fieldDiff_applyUpdate (doc raw : Obj) (hn : (raw.map Prod.fst).Nodup) :
    fieldDiff (applyUpdate doc (fieldDiff doc raw)) raw = [] := by
  have hu : ((fieldDiff doc raw).map Prod.fst).Nodup :=
    List.Nodup.sublist (List.Sublist.map _ (List.filter_sublist raw)) hn
  rw [fieldDiff, List.filter_eq_nil_iff]
  rintro ⟨k, v⟩ hkv hP
  rw [Bool.and_eq_true, Bool.and_eq_true] at hP
  obtain ⟨⟨hskip, hne⟩, hnn⟩ := hP
  rw [Bool.not_eq_true'] at hskip hne
  have hne' : getF (applyUpdate doc (fieldDiff doc raw)) k ≠ v := by
    intro hc
    rw [hc] at hne
    simp at hne
  apply hne'
  rw [getF_applyUpdate _ _ hu]
  by_cases hk : hasKey (fieldDiff doc raw) k
  · have hmem := mem_of_hasKey hk
    have hraw : (k, getF (fieldDiff doc raw) k) ∈ raw := List.mem_of_mem_filter hmem
    have h1 := getF_eq_of_mem hn hraw
    have h2 := getF_eq_of_mem hn hkv
    rw [if_pos hk]
    exact h1.symm.trans h2
  · have hnotin : (k, v) ∉ fieldDiff doc raw := fun hc => by
      exact absurd (hasKey_of_mem hc) (by simp [hk])
    have hpred := fun hcontra => hnotin (fieldDiff_mem.mpr ⟨hkv, hcontra⟩)
    rw [if_neg hk]
    by_contra hc
    apply hpred
    rw [Bool.and_eq_true, Bool.and_eq_true]
    refine ⟨⟨by rw [Bool.not_eq_true']; exact hskip, ?_⟩, hnn⟩
    rw [Bool.not_eq_true']
    simp [hc]

/-- C4 (confirmed): a field is included in the update computed by the
merge engine (`updateDoc` and `updateMixin` both issue exactly
`fieldDiff doc raw` as their update) only when the incoming value
differs from the stored value and is neither null nor undefined; and a
field whose incoming value is null or undefined (or absent) is never
changed, neither in the in-memory document returned by `updateDoc` nor
by applying the issued update. -/
theorem c4_null_safety (doc raw : Obj) (hn : (raw.map Prod.fst).Nodup) :
    (∀ kv ∈ fieldDiff doc raw,
        getF doc kv.1 ≠ kv.2 ∧ kv.2 ≠ Val.vnull ∧ kv.2 ≠ Val.vundef) ∧
    (∀ k : String, getF raw k = Val.vnull ∨ getF raw k = Val.vundef →
        getF (updateDoc doc raw).1 k = getF doc k ∧
        getF (applyUpdate doc (fieldDiff doc raw)) k = getF doc k) := by
  have hu : ((fieldDiff doc raw).map Prod.fst).Nodup :=
    List.Nodup.sublist (List.Sublist.map _ (List.filter_sublist raw)) hn
  constructor
  · rintro ⟨k, v⟩ hkv
    have hP := (fieldDiff_mem.mp hkv).2
    rw [Bool.and_eq_true, Bool.and_eq_true] at hP
    obtain ⟨⟨hskip, hne⟩, hnn⟩ := hP
    rw [Bool.not_eq_true'] at hne
    refine ⟨?_, ?_, ?_⟩
    · intro hc
      rw [hc] at hne
      simp at hne
    · intro hc
      rw [hc] at hnn
      simp [nonNull] at hnn
    · intro hc
      rw [hc] at hnn
      simp [nonNull] at hnn
  · intro k hk
    have hkey : hasKey (fieldDiff doc raw) k = false := by
      by_contra hc
      rw [Bool.not_eq_false] at hc
      have hmem := mem_of_hasKey hc
      have hP := (fieldDiff_mem.mp hmem).2
      rw [Bool.and_eq_true, Bool.and_eq_true] at hP
      have hnn := hP.2
      have hraw : (k, getF (fieldDiff doc raw) k) ∈ raw := List.mem_of_mem_filter hmem
      have hval := getF_eq_of_mem hn hraw
      rcases hk with h | h <;> rw [h] at hval <;> rw [← hval] at hnn <;>
        simp [nonNull] at hnn
    have happ : getF (applyUpdate doc (fieldDiff doc raw)) k = getF doc k := by
      rw [getF_applyUpdate _ _ hu, hkey]
      simp
    refine ⟨?_, happ⟩
    by_cases hemp : fieldDiff doc raw = []
    · simp [updateDoc, hemp]
    · simp only [updateDoc, if_neg hemp]
      exact happ

/-- Witness for `c4_null_safety` at a concrete document and raw input. -/
theorem c4_null_safety_witness :
    (([("x", Val.vint 1), ("y", Val.vnull)].map Prod.fst).Nodup : Prop) ∧
    ((∀ kv ∈ fieldDiff [("x", Val.vint 1)] [("x", Val.vint 1), ("y", Val.vnull)],
        getF [("x", Val.vint 1)] kv.1 ≠ kv.2 ∧ kv.2 ≠ Val.vnull ∧ kv.2 ≠ Val.vundef) ∧
    (∀ k : String, getF [("x", Val.vint 1), ("y", Val.vnull)] k = Val.vnull ∨
        getF [("x", Val.vint 1), ("y", Val.vnull)] k = Val.vundef →
        getF (updateDoc [("x", Val.vint 1)] [("x", Val.vint 1), ("y", Val.vnull)]).1 k =
          getF [("x", Val.vint 1)] k ∧
        getF (applyUpdate [("x", Val.vint 1)]
          (fieldDiff [("x", Val.vint 1)] [("x", Val.vint 1), ("y", Val.vnull)])) k =
          getF [("x", Val.vint 1)] k)) :=
  ⟨by decide, c4_null_safety _ _ (by decide)⟩

/-- C8 counterexample: on the spec's example input the translator does
not produce the output string claimed by the spec (the line-break tag is
not inserted before the newline). -/
theorem c8_counterexample :
    processComment "Hello[URL=http://x]click[/URL]\nworld" ≠
      "Hello<a href=\"http://x\">click</a></br>\nworld" := by
  decide

/-- C8 (amended): the translator maps the example input to the output in
which `</br>` follows the newline character (the replacement string of
`replaceAll('\n', '\n</br>')` keeps the newline first). -/
theorem c8_amended :
    processComment "Hello[URL=http://x]click[/URL]\nworld" =
      "Hello<a href=\"http://x\">click</a>\n</br>world" := by
  decide

theorem takeWhile_append_all {p : Char → Bool} (t l : List Char)
    (h : ∀ c ∈ t, p c = true) : (t ++ l).takeWhile p = t ++ l.takeWhile p := by
  induction t with
  | nil => simp
  | cons c rest ih =>
    simp only [List.cons_append]
    rw [List.takeWhile_cons_of_pos (h c (by simp)), ih (fun c hc => h c (by simp [hc]))]

theorem dropWhile_append_all {p : Char → Bool} (t l : List Char)
    (h : ∀ c ∈ t, p c = true) : (t ++ l).dropWhile p = l.dropWhile p := by
  induction t with
  | nil => simp
  | cons c rest ih =>
    simp only [List.cons_append]
    rw [List.dropWhile_cons_of_pos (h c (by simp))]
    exact ih (fun c hc => h c (by simp [hc]))

theorem replNl_eq_self {l : List Char} (h : ∀ c ∈ l, c ≠ '\n') : replNl l = l := by
  induction l with
  | nil => rfl
  | cons c rest ih =>
    have hc := h c (by simp)
    simp only [replNl, if_neg hc]
    rw [ih (fun c hc => h c (by simp [hc]))]

/-- None of the rewrite rules of `tagRepl` applies to the tag body: the
conditions checked by the source, all negated. -/
def unknownTag (args : List Char) : Bool :=
  !(("/URL".toList).isPrefixOf args) && !(("URL=".toList).isPrefixOf args) &&
  !(containsSub "/FONT".toList args) && !(containsSub "FONT".toList args) &&
  !(containsSub "/SIZE".toList args) && !(containsSub "SIZE".toList args) &&
  !(containsSub "/COLOR".toList args) && !(containsSub "COLOR".toList args) &&
  !(containsSub "/IMG".toList args) && !(containsSub "IMG".toList args) &&
  !(containsSub "/TABLE".toList args) && !(containsSub "TABLE".toList args)

/-- C9 (confirmed): a bracket tag whose body matches none of the
recognized rules is passed through as the literal matching angle-bracket
tag, both at the level of the replacement callback and through the whole
translator on the bracketed input. -/
theorem c9_unknown_tag_passthrough (t : List Char) (hne : t ≠ [])
    (hchars : ∀ c ∈ t, tagChar c = true ∧ c ≠ '\n')
    (hno : unknownTag t = true) :
    tagRepl t = '<' :: t ++ ['>'] ∧
    processCommentL ('[' :: (t ++ [']'])) = '<' :: t ++ ['>'] := by
  simp only [unknownTag, Bool.and_eq_true, Bool.not_eq_true'] at hno
  obtain ⟨⟨⟨⟨⟨⟨⟨⟨⟨⟨⟨h1, h2⟩, h3⟩, h4⟩, h5⟩, h6⟩, h7⟩, h8⟩, h9⟩, h10⟩, h11⟩, h12⟩ := hno
  have htag : tagRepl t = '<' :: t ++ ['>'] := by
    simp only [tagRepl]
    rw [if_neg (by rw [Bool.not_eq_true]; exact h1),
      if_neg (by rw [Bool.not_eq_true]; exact h2),
      if_neg (by rw [Bool.not_eq_true]; exact h3),
      if_neg (by rw [Bool.not_eq_true]; exact h4),
      if_neg (by rw [Bool.not_eq_true]; exact h5),
      if_neg (by rw [Bool.not_eq_true]; exact h6),
      if_neg (by rw [Bool.not_eq_true]; exact h7),
      if_neg (by rw [Bool.not_eq_true]; exact h8),
      if_neg (by rw [Bool.not_eq_true]; exact h9),
      if_neg (by rw [Bool.not_eq_true]; exact h10),
      if_neg (by rw [Bool.not_eq_true]; exact h11),
      if_neg (by rw [Bool.not_eq_true]; exact h12)]
  refine ⟨htag, ?_⟩
  have hA : ∀ c ∈ ('[' :: (t ++ [']'])), c ≠ '\n' := by
    intro c hc
    rcases List.mem_cons.mp hc with h | h
    · subst h; decide
    · rcases List.mem_append.mp h with h | h
      · exact (hchars c h).2
      · simp only [List.mem_singleton] at h
        subst h; decide
  rw [processCommentL, replNl_eq_self hA, rtags]
  have hlen : ('[' :: (t ++ [']'])).length = t.length + 1 + 1 := by simp
  rw [hlen]
  have hrun : (t ++ [']']).takeWhile tagChar = t := by
    rw [takeWhile_append_all t [']'] (fun c hc => (hchars c hc).1)]
    simp [List.takeWhile, tagChar]
  have hdrop : (t ++ [']']).dropWhile tagChar = ']' :: [] := by
    rw [dropWhile_append_all t [']'] (fun c hc => (hchars c hc).1)]
    simp [List.dropWhile, tagChar]
  have hstep : ∀ (f : Nat) (c : Char) (rest : List Char),
      rtagsF (f + 1) (c :: rest) =
        if c = '[' then
          if (rest.takeWhile tagChar).isEmpty then c :: rtagsF f rest
          else
            match rest.dropWhile tagChar with
            | ']' :: rest' => tagRepl (rest.takeWhile tagChar) ++ rtagsF f rest'
            | _ => c :: rtagsF f rest
        else c :: rtagsF f rest := fun _ _ _ => rfl
  rw [hstep, if_pos rfl, hrun, hdrop]
  rw [if_neg (by cases t with
    | nil => exact absurd rfl hne
    | cons a l => simp [List.isEmpty])]
  show tagRepl t ++ rtagsF (t.length + 1) [] = '<' :: t ++ ['>']
  have hnilstep : rtagsF (t.length + 1) [] = [] := rfl
  rw [hnilstep, List.append_nil, htag]

/-- Witness for `c9_unknown_tag_passthrough` at the concrete tag `xyz`. -/
theorem c9_unknown_tag_passthrough_witness :
    ("xyz".toList ≠ [] ∧ (∀ c ∈ "xyz".toList, tagChar c = true ∧ c ≠ '\n') ∧
      unknownTag "xyz".toList = true) ∧
    (tagRepl "xyz".toList = '<' :: "xyz".toList ++ ['>'] ∧
      processCommentL ('[' :: ("xyz".toList ++ [']'])) = '<' :: "xyz".toList ++ ['>']) :=
  ⟨⟨by decide, by decide, by decide⟩,
    c9_unknown_tag_passthrough _ (by decide) (by decide) (by decide)⟩

/-- C5 (confirmed): a record whose matching local document carries a
sync trait with a defined `syncTime` such that
`syncTime + (syncPeriod ?? defaultSyncPeriod)` is still greater than the
page-fetch time is skipped without any conversion or merge: the loop
state only gains one accepted count and one monitor report, and the
store is untouched; moreover `defaultSyncPeriod` is 24 hours in
milliseconds. -/
theorem c5_suppression (o : LoopOpts) (stPage : Store) (exDocs : List Obj)
    (syncTime : Int) (r : RecInfo) (rest : List RecInfo) (s : LoopState) (d : Obj)
    (hfind : foundExisting stPage exDocs r = some d)
    (hsup : suppressed o stPage d syncTime = true)
    (hlim : s.added + 1 < o.limit) :
    innerLoop o stPage exDocs syncTime (r :: rest) s =
      innerLoop o stPage exDocs syncTime rest
        { s with added := s.added + 1, events := s.events ++ [LEvent.monitor] } ∧
    defaultSyncPeriod = 86400000 := by
  constructor
  · rw [innerLoop]
    simp only [hfind, hsup, if_pos]
    rw [if_neg (by omega)]
  · decide

/-- Concrete data for the `c5_suppression` witness. -/
def c5doc : Obj := [("_id", Val.vstr "M"), ("_class", Val.vstr "C")]

def c5store : Store :=
  { docs := [c5doc],
    mixins := [(Val.vstr "M", syncMixinName,
      [("bitrixId", Val.vstr "1"), ("syncTime", Val.vint 0)])] }

def c5opts : LoopOpts :=
  { env := { attachedClasses := [], failAttachFind := false },
    limit := 5, comments := false, syncPeriod := none, ofClass := Val.vstr "C" }

def c5rec : RecInfo := { id := "1", conv := none, commentThrows := false }

def c5state : LoopState := { store := c5store, added := 0, events := [], resultDocs := [] }

/-- Witness for `c5_suppression` at a concrete suppressed record. -/
theorem c5_suppression_witness :
    (foundExisting c5store [c5doc] c5rec = some c5doc ∧
      suppressed c5opts c5store c5doc 5 = true ∧ c5state.added + 1 < c5opts.limit) ∧
    (innerLoop c5opts c5store [c5doc] 5 (c5rec :: []) c5state =
      innerLoop c5opts c5store [c5doc] 5 []
        { c5state with added := c5state.added + 1, events := c5state.events ++ [LEvent.monitor] } ∧
      defaultSyncPeriod = 86400000) :=
  ⟨⟨by decide, by decide, by decide⟩,
    c5_suppression c5opts c5store [c5doc] 5 c5rec [] c5state c5doc
      (by decide) (by decide) (by decide)⟩

/-- The record is not skipped by the suppression window. -/
def notSuppressed (o : LoopOpts) (stPage : Store) (exDocs : List Obj)
    (syncTime : Int) (r : RecInfo) : Bool :=
  match foundExisting stPage exDocs r with
  | some d => !suppressed o stPage d syncTime
  | none => true

/-- C7 (amended): for a record that is not suppressed, (1) a conversion
exception is logged, backoff-slept and the loop moves to the next record
without incrementing the accepted count; (2) a comment-download
exception behaves the same; (3) when conversion and comment download
succeed, the accepted count is incremented and the merge runs via
`syncDocument`, whose own failures are swallowed inside it — the record
still counts, no backoff sleep happens, and the loop proceeds.  The loop
is a total function, so no per-record exception terminates it. -/
theorem c7_amended (o : LoopOpts) (stPage : Store) (exDocs : List Obj) (syncTime : Int)
    (r : RecInfo) (rest : List RecInfo) (s : LoopState)
    (hns : notSuppressed o stPage exDocs syncTime r = true) :
    (r.conv = none →
      innerLoop o stPage exDocs syncTime (r :: rest) s =
        innerLoop o stPage exDocs syncTime rest
          { s with events := s.events ++ [LEvent.convert r.id, LEvent.sleep] }) ∧
    (∀ res, r.conv = some res → (o.comments && r.commentThrows) = true →
      innerLoop o stPage exDocs syncTime (r :: rest) s =
        innerLoop o stPage exDocs syncTime rest
          { s with events := s.events ++ [LEvent.convert r.id, LEvent.download r.id, LEvent.sleep] }) ∧
    (∀ res, r.conv = some res → (o.comments && r.commentThrows) = false →
      s.added + 1 < o.limit →
      innerLoop o stPage exDocs syncTime (r :: rest) s =
        innerLoop o stPage exDocs syncTime rest
          { store := (syncDocument o.env s.store (foundExisting stPage exDocs r) res syncTime).store,
            added := s.added + 1,
            events := s.events ++ [LEvent.convert r.id]
              ++ (if o.comments then [LEvent.download r.id] else [])
              ++ [LEvent.merge r.id, LEvent.monitor],
            resultDocs := s.resultDocs ++ [mergedResultId (foundExisting stPage exDocs r) res] }) := by
  have hsupF : (match foundExisting stPage exDocs r with
      | some d => suppressed o stPage d syncTime
      | none => false) = false := by
    unfold notSuppressed at hns
    rcases hf : foundExisting stPage exDocs r with _ | d <;> rw [hf] at hns <;> simp_all
  refine ⟨?_, ?_, ?_⟩
  · intro hc
    rw [innerLoop]
    simp only [hsupF, Bool.false_eq_true, if_false, hc]
  · intro res hc hct
    rw [innerLoop]
    simp only [hsupF, Bool.false_eq_true, if_false, hc, hct, if_true]
  · intro res hc hct hlim
    rw [innerLoop]
    simp only [hsupF, Bool.false_eq_true, if_false, hc, hct]
    rw [if_neg (by omega)]

def c7store0 : Store := { docs := [], mixins := [] }

def c7env : Env := { attachedClasses := [], failAttachFind := true }

def c7opts : LoopOpts :=
  { env := c7env, limit := 5, comments := false, syncPeriod := none, ofClass := Val.vstr "C" }

def c7res : ConvertResult :=
  { document := [("_id", Val.vstr "N1"), ("_class", Val.vstr "C"), ("space", Val.vstr "S"),
      ("modifiedOn", Val.vint 1), ("modifiedBy", Val.vstr "u"), ("type", Val.vstr "lead"),
      ("bitrixId", Val.vstr "9"), ("rawData", Val.vstr "raw")],
    mixins := [], extraDocs := [], extraSync := [], rawData := Val.vstr "raw", blobs := [] }

def c7rec : RecInfo := { id := "9", conv := some c7res, commentThrows := false }

def c7state : LoopState := { store := c7store0, added := 0, events := [], resultDocs := [] }

/-- C7 counterexample: a record whose conversion succeeds but whose
merge transaction fails (the store throws inside `syncDocument`, so
`commit` is never reached) is still counted: the accepted count is
incremented and no backoff sleep happens, contradicting the claim that a
merge exception leaves the accepted count unchanged. -/
theorem c7_counterexample :
    (innerLoop c7opts c7store0 [] 0 [c7rec] c7state).added = 1 ∧
    LEvent.sleep ∉ (innerLoop c7opts c7store0 [] 0 [c7rec] c7state).events ∧
    (syncDocument c7env c7state.store (foundExisting c7store0 [] c7rec) c7res 0).committed
      = false := by
  decide

def c7wrec : RecInfo := { id := "w", conv := none, commentThrows := false }

/-- Witness for `c7_amended` at a concrete record whose conversion
throws. -/
theorem c7_amended_witness :
    (notSuppressed c7opts c7store0 [] 0 c7wrec = true) ∧
    ((c7wrec.conv = none →
      innerLoop c7opts c7store0 [] 0 (c7wrec :: []) c7state =
        innerLoop c7opts c7store0 [] 0 []
          { c7state with events := c7state.events ++ [LEvent.convert c7wrec.id, LEvent.sleep] }) ∧
    (∀ res, c7wrec.conv = some res → (c7opts.comments && c7wrec.commentThrows) = true →
      innerLoop c7opts c7store0 [] 0 (c7wrec :: []) c7state =
        innerLoop c7opts c7store0 [] 0 []
          { c7state with events := c7state.events ++ [LEvent.convert c7wrec.id, LEvent.download c7wrec.id, LEvent.sleep] }) ∧
    (∀ res, c7wrec.conv = some res → (c7opts.comments && c7wrec.commentThrows) = false →
      c7state.added + 1 < c7opts.limit →
      innerLoop c7opts c7store0 [] 0 (c7wrec :: []) c7state =
        innerLoop c7opts c7store0 [] 0 []
          { store := (syncDocument c7opts.env c7state.store (foundExisting c7store0 [] c7wrec) res 0).store,
            added := c7state.added + 1,
            events := c7state.events ++ [LEvent.convert c7wrec.id]
              ++ (if c7opts.comments then [LEvent.download c7wrec.id] else [])
              ++ [LEvent.merge c7wrec.id, LEvent.monitor],
            resultDocs := c7state.resultDocs ++ [mergedResultId (foundExisting c7store0 [] c7wrec) res] })) :=
  ⟨by decide, c7_amended c7opts c7store0 [] 0 c7wrec [] c7state (by decide)⟩

/-- Events that the per-user fold of `synchronizeUsers` can emit. -/
theorem userFold_events (allEmp : List (String × String)) (us : List BUser) :
    ∀ (acc : List (String × String) × List PEvent),
      (∀ e ∈ acc.2, e = PEvent.createEmployee ∨ e = PEvent.createAccount) →
      ∀ e ∈ (us.foldl (fun acc u =>
          match allEmp.find? (·.1 == u.email) with
          | some em => (mapSet acc.1 u.id em.2, acc.2)
          | none => (mapSet acc.1 u.id ("account:" ++ u.email),
              acc.2 ++ [PEvent.createEmployee, PEvent.createAccount])) acc).2,
        e = PEvent.createEmployee ∨ e = PEvent.createAccount := by
  induction us with
  | nil => intro acc hacc e he; exact hacc e he
  | cons u urest uih =>
    intro acc hacc e he
    simp only [List.foldl_cons] at he
    rcases hfind : allEmp.find? (·.1 == u.email) with _ | em
    · rw [hfind] at he
      refine uih _ ?_ e he
      intro e' he'
      simp only [List.mem_append, List.mem_cons, List.not_mem_nil, or_false] at he'
      rcases he' with h' | h' | h'
      · exact hacc e' h'
      · exact Or.inl h'
      · exact Or.inr h'
    · rw [hfind] at he
      exact uih (mapSet acc.1 u.id em.2, acc.2) hacc e he

/-- Events that `synchronizeUsers` can emit. -/
theorem synchronizeUsers_events (allEmp : List (String × String)) :
    ∀ (pages : List UserPage) (n : Nat) (ul : List (String × String)),
      ∀ e ∈ (synchronizeUsers allEmp pages n ul).2,
        e = PEvent.userSearchCall ∨ e = PEvent.createEmployee ∨ e = PEvent.createAccount := by
  intro pages
  induction pages with
  | nil =>
    intro n ul e he
    simp [synchronizeUsers] at he
  | cons p rest ih =>
    intro n ul e he
    rw [synchronizeUsers] at he
    by_cases h : ul.length < n
    · rw [if_pos h] at he
      rw [List.mem_append] at he
      rcases he with h1 | h1
      · rcases List.mem_append.mp h1 with h2 | h2
        · simp only [List.mem_singleton] at h2
          exact Or.inl h2
        · exact Or.inr (userFold_events allEmp p.result (ul, [])
            (by intro e' he'; simp at he') e h2)
      · exact ih p.total _ e h1
    · rw [if_neg h] at he
      simp at he

/-- C10 (confirmed): when the target space is undefined or the mapping
carries no looked-up field mappings, `performSynchronization` returns
the empty list, performs no remote list-page fetch, no record
conversion and no merge — while the up-front comment-field fetch,
owner-type fetch, employee and mapping `findAll`s and the user
synchronization still run before the check. -/
theorem c10_guard (ps : PSyncOpts) (syncTime : Int)
    (h : ps.space = none ∨ ps.lookupFields = none) :
    (performSynchronization ps syncTime).1 = [] ∧
    (performSynchronization ps syncTime).2 =
      [PEvent.callCommentFields, PEvent.callOwnerType, PEvent.findEmployees,
        PEvent.findMappings] ++ (synchronizeUsers ps.allEmployee ps.userPages 1 []).2 ∧
    PEvent.listCall ∉ (performSynchronization ps syncTime).2 ∧
    (∀ e : LEvent, PEvent.inner e ∉ (performSynchronization ps syncTime).2) := by
  have hguard : (ps.space.isNone || ps.lookupFields.isNone) = true := by
    rcases h with h | h <;> simp [h]
  have hd : doPerformSync ps syncTime = ([], []) := by
    rw [doPerformSync]
    rcases h with h | h <;> simp [h]
  have h2 : (performSynchronization ps syncTime).2 =
      [PEvent.callCommentFields, PEvent.callOwnerType, PEvent.findEmployees,
        PEvent.findMappings] ++ (synchronizeUsers ps.allEmployee ps.userPages 1 []).2 := by
    rw [performSynchronization, hd]
    simp
  refine ⟨?_, h2, ?_, ?_⟩
  · rw [performSynchronization, hd]
  · rw [h2]
    intro hc
    simp only [List.mem_append] at hc
    rcases hc with hc | hc
    · simp at hc
    · rcases synchronizeUsers_events ps.allEmployee ps.userPages 1 [] _ hc with h' | h' | h' <;>
        simp at h'
  · intro e
    rw [h2]
    intro hc
    simp only [List.mem_append] at hc
    rcases hc with hc | hc
    · simp at hc
    · rcases synchronizeUsers_events ps.allEmployee ps.userPages 1 [] _ hc with h' | h' | h' <;>
        simp at h'

def c10opts : PSyncOpts :=
  { o := c5opts, space := none, lookupFields := some ["f"],
    pages := [], userPages := [{ result := [{ id := "u1", email := "a@b" }], total := 1 }],
    allEmployee := [], st0 := c7store0 }

/-- Witness for `c10_guard` at a concrete options value with an
undefined space. -/
theorem c10_guard_witness :
    (c10opts.space = none ∨ c10opts.lookupFields = none) ∧
    ((performSynchronization c10opts 0).1 = [] ∧
    (performSynchronization c10opts 0).2 =
      [PEvent.callCommentFields, PEvent.callOwnerType, PEvent.findEmployees,
        PEvent.findMappings] ++ (synchronizeUsers c10opts.allEmployee c10opts.userPages 1 []).2 ∧
    PEvent.listCall ∉ (performSynchronization c10opts 0).2 ∧
    (∀ e : LEvent, PEvent.inner e ∉ (performSynchronization c10opts 0).2)) :=
  ⟨Or.inl rfl, c10_guard c10opts 0 (Or.inl rfl)⟩

/-- Every direct (non-batch) store operation accumulated by the
class-group fold of the reconciliation is a `remove`. -/
theorem foldl_reconcile_direct (env : Env) (docId : Val) (ex : List Obj) :
    ∀ (cls : List Val) (acc : Store × List WOp × List WOp),
      (∀ w ∈ acc.2.2, ∃ id, w = WOp.remove id) →
      ∀ w ∈ (cls.foldl (reconcileClass env docId ex) acc).2.2, ∃ id, w = WOp.remove id := by
  intro cls
  induction cls with
  | nil => intro acc h w hw; exact h w hw
  | cons c rest ih =>
    intro acc h w hw
    rw [List.foldl_cons] at hw
    refine ih _ ?_ w hw
    obtain ⟨st, batch, direct⟩ := acc
    intro w' hw'
    simp only [reconcileClass] at hw'
    by_cases hc : isAttachedClass env c
    · rw [if_pos hc] at hw'
      rcases List.mem_append.mp hw' with h' | h'
      · exact h w' h'
      · obtain ⟨d, _, hd⟩ := List.mem_map.mp h'
        exact ⟨getF d "_id", hd.symm⟩
    · rw [if_neg hc] at hw'
      exact h w' hw'

/-- The direct operations of the whole reconciliation are removes. -/
theorem reconcileAll_direct (env : Env) (st : Store) (docId : Val) (ex : List Obj) :
    ∀ w ∈ (reconcileAll env st docId ex).2.2, ∃ id, w = WOp.remove id :=
  foldl_reconcile_direct env docId ex (classList ex) (st, [], [])
    (by intro w hw; simp at hw)

/-- C2 (amended): every write of `syncDocument` except the orphan
sub-document removals goes through the apply batch and becomes durable
only when `commit` runs; the orphan removals are issued directly through
the client (`client.remove`, sync.ts line 160), so they are the only
operations that can be durable when an exception aborts the
transaction — and an exception in the attachment lookup of step 5 does
abort it (no commit). -/
theorem c2_direct_channel (env : Env) (st : Store) (existing : Option Obj)
    (res : ConvertResult) (now : Int) :
    (∀ w ∈ (syncDocument env st existing res now).direct, ∃ id, w = WOp.remove id) ∧
    (env.failAttachFind = true → (syncDocument env st existing res now).committed = false) := by
  constructor
  · simp only [syncDocument]
    by_cases hf : env.failAttachFind
    · simp only [hf, if_true]
      intro w hw
      exact reconcileAll_direct env st _ _ w hw
    · simp only [hf, Bool.false_eq_true, if_false]
      intro w hw
      exact reconcileAll_direct env st _ _ w hw
  · intro hf
    simp only [syncDocument, hf, if_true]

def exMain : Obj :=
  [("_id", Val.vstr "M"), ("_class", Val.vstr "C"), ("space", Val.vstr "S"),
   ("title", Val.vstr "T")]

def exEnvOk : Env :=
  { attachedClasses := [Val.vstr "chunter:class:Comment", attachmentClassName],
    failAttachFind := false }

def exEnvFail : Env :=
  { attachedClasses := [Val.vstr "chunter:class:Comment", attachmentClassName],
    failAttachFind := true }

/-- A previously synced comment sub-document of the main document. -/
def exOrphan : Obj :=
  [("_id", Val.vstr "c1"), ("_class", Val.vstr "chunter:class:Comment"),
   ("space", Val.vstr "S"), ("attachedTo", Val.vstr "M"), ("attachedToClass", Val.vstr "C"),
   ("collection", Val.vstr "comments"), ("message", Val.vstr "hi")]

/-- A store holding the main document (with its sync trait) and one
previously synced comment sub-document with remote id `b`. -/
def exStore : Store :=
  { docs := [exMain, exOrphan],
    mixins := [(Val.vstr "M", syncMixinName,
        [("type", Val.vstr "lead"), ("bitrixId", Val.vstr "17"), ("rawData", Val.vstr "raw"),
         ("syncTime", Val.vint 0)]),
      (Val.vstr "c1", syncMixinName,
        [("type", Val.vstr "lead"), ("bitrixId", Val.vstr "b"), ("rawData", Val.vnull)])] }

def exDocRes : Obj :=
  [("_id", Val.vstr "M0"), ("_class", Val.vstr "C"), ("space", Val.vstr "S"),
   ("modifiedOn", Val.vint 5), ("modifiedBy", Val.vstr "u"), ("type", Val.vstr "lead"),
   ("bitrixId", Val.vstr "17"), ("rawData", Val.vstr "raw"), ("title", Val.vstr "T")]

/-- A conversion result with one pending comment sub-document whose
remote id `z` matches nothing in the store. -/
def exResComment : ConvertResult :=
  { document := exDocRes, mixins := [], extraDocs := [],
    extraSync := [[("_id", Val.vstr "c9"), ("_class", Val.vstr "chunter:class:Comment"),
      ("space", Val.vstr "S"), ("attachedTo", Val.vstr "M0"), ("attachedToClass", Val.vstr "C"),
      ("collection", Val.vstr "comments"), ("modifiedOn", Val.vint 5),
      ("modifiedBy", Val.vstr "u"), ("bitrixId", Val.vstr "z"), ("type", Val.vstr "lead"),
      ("rawData", Val.vstr "r"), ("message", Val.vstr "new")]],
    rawData := Val.vstr "raw", blobs := [] }

/-- C2 counterexample: with an exception raised in step 5 (the
attachment `findAll` throws) the transaction is aborted — `commit` never
runs and the batched writes (among them the `addCollection` of the new
comment) are not applied — yet the orphan removal issued through the
direct client channel is already durable: the previously synced comment
`c1` is gone from the store.  Not all writes of the merge are
all-or-nothing. -/
theorem c2_counterexample :
    (syncDocument exEnvFail exStore (some exMain) exResComment 7).committed = false ∧
    (syncDocument exEnvFail exStore (some exMain) exResComment 7).direct =
      [WOp.remove (Val.vstr "c1")] ∧
    (syncDocument exEnvFail exStore (some exMain) exResComment 7).store.docs.any
      (fun d => getF d "_id" == Val.vstr "c1") = false ∧
    (syncDocument exEnvFail exStore (some exMain) exResComment 7).batch ≠ [] := by
  decide

/-- Witness for `c2_direct_channel` at the concrete failing scenario. -/
theorem c2_direct_channel_witness :
    (∀ w ∈ (syncDocument exEnvFail exStore (some exMain) exResComment 7).direct,
      ∃ id, w = WOp.remove id) ∧
    (exEnvFail.failAttachFind = true ∧
      (syncDocument exEnvFail exStore (some exMain) exResComment 7).committed = false) :=
  ⟨(c2_direct_channel exEnvFail exStore (some exMain) exResComment 7).1,
    rfl, (c2_direct_channel exEnvFail exStore (some exMain) exResComment 7).2 rfl⟩

/-! ### Lemmas about the sub-document reconciliation -/

theorem findByBitrixId_some {st : Store} {pool : List Obj} {bid : Val} {e : Obj}
    (h : (findByBitrixId st pool bid).1 = some e) : e ∈ pool ∧ bidOf st e = bid := by
  induction pool with
  | nil => simp [findByBitrixId] at h
  | cons x rest ih =>
    rw [findByBitrixId] at h
    by_cases hx : bidOf st x == bid
    · rw [if_pos hx] at h
      simp only [Option.some.injEq] at h
      subst h
      exact ⟨List.mem_cons_self _ _, by simpa using hx⟩
    · rw [if_neg hx] at h
      obtain ⟨hm, hb⟩ := ih h
      exact ⟨List.mem_cons_of_mem _ hm, hb⟩

theorem findByBitrixId_none_snd {st : Store} {pool : List Obj} {bid : Val}
    (h : (findByBitrixId st pool bid).1 = none) : (findByBitrixId st pool bid).2 = pool := by
  induction pool with
  | nil => simp [findByBitrixId]
  | cons x rest ih =>
    rw [findByBitrixId] at h ⊢
    by_cases hx : bidOf st x == bid
    · rw [if_pos hx] at h
      simp at h
    · rw [if_neg hx] at h ⊢
      simp only [List.cons.injEq, true_and]
      exact ih h

theorem findByBitrixId_none {st : Store} {pool : List Obj} {bid : Val}
    (h : ∀ e ∈ pool, ¬(bidOf st e = bid)) : (findByBitrixId st pool bid).1 = none := by
  induction pool with
  | nil => simp [findByBitrixId]
  | cons x rest ih =>
    rw [findByBitrixId]
    rw [if_neg (by simp [h x (List.mem_cons_self _ _)])]
    exact ih (fun e he => h e (List.mem_cons_of_mem _ he))

theorem findByBitrixId_snd_subset {st : Store} {pool : List Obj} {bid : Val} :
    ∀ x ∈ (findByBitrixId st pool bid).2, x ∈ pool := by
  induction pool with
  | nil => simp [findByBitrixId]
  | cons e rest ih =>
    intro x hx
    rw [findByBitrixId] at hx
    by_cases he : bidOf st e == bid
    · rw [if_pos he] at hx
      exact List.mem_cons_of_mem _ hx
    · rw [if_neg he] at hx
      rcases List.mem_cons.mp hx with h | h
      · exact h ▸ List.mem_cons_self _ _
      · exact List.mem_cons_of_mem _ (ih x h)

theorem findByBitrixId_cover {st : Store} {pool : List Obj} {bid : Val} :
    ∀ x ∈ pool, x ∈ (findByBitrixId st pool bid).2 ∨ (findByBitrixId st pool bid).1 = some x := by
  induction pool with
  | nil => simp
  | cons e rest ih =>
    intro x hx
    rw [findByBitrixId]
    by_cases he : bidOf st e == bid
    · rw [if_pos he]
      rcases List.mem_cons.mp hx with h | h
      · exact Or.inr (by rw [h])
      · exact Or.inl h
    · rw [if_neg he]
      rcases List.mem_cons.mp hx with h | h
      · exact Or.inl (h ▸ List.mem_cons_self _ _)
      · rcases ih x h with h2 | h2
        · exact Or.inl (List.mem_cons_of_mem _ h2)
        · exact Or.inr h2

theorem findByBitrixId_some_not_snd {st : Store} {pool : List Obj} {bid : Val} {e : Obj}
    (hn : (pool.map (bidOf st)).Nodup)
    (h : (findByBitrixId st pool bid).1 = some e) :
    e ∉ (findByBitrixId st pool bid).2 := by
  induction pool with
  | nil => simp [findByBitrixId] at h
  | cons x rest ih =>
    simp only [List.map_cons, List.nodup_cons] at hn
    rw [findByBitrixId] at h ⊢
    by_cases hx : bidOf st x == bid
    · rw [if_pos hx] at h ⊢
      simp only [Option.some.injEq] at h
      intro hc
      apply hn.1
      have hbx : bidOf st x = bid := by simpa using hx
      have hbe : bidOf st e = bid := by rw [← h]; exact hbx
      exact List.mem_map.mpr ⟨e, hc, by rw [hbe, hbx]⟩
    · rw [if_neg hx] at h ⊢
      intro hc
      rcases List.mem_cons.mp hc with h2 | h2
      · obtain ⟨hm, hb⟩ := findByBitrixId_some h
        rw [h2] at hb
        exact (by simpa using hx : ¬(bidOf st x = bid)) hb
      · exact ih hn.2 h h2

theorem findByBitrixId_snd_sublist {st : Store} {pool : List Obj} {bid : Val} :
    List.Sublist (findByBitrixId st pool bid).2 pool := by
  induction pool with
  | nil => simp [findByBitrixId]
  | cons x rest ih =>
    rw [findByBitrixId]
    by_cases hx : bidOf st x == bid
    · rw [if_pos hx]
      exact List.sublist_cons_self x rest
    · rw [if_neg hx]
      exact List.Sublist.cons₂ x ih

theorem findByBitrixId_finds_unique {st : Store} {pool : List Obj} {b : Val} {e : Obj}
    (hn : (pool.map (bidOf st)).Nodup) (he : e ∈ pool) (hb : bidOf st e = b) :
    (findByBitrixId st pool b).1 = some e := by
  induction pool with
  | nil => simp at he
  | cons x rest ih =>
    simp only [List.map_cons, List.nodup_cons] at hn
    rw [findByBitrixId]
    by_cases hx : bidOf st x == b
    · rw [if_pos hx]
      rcases List.mem_cons.mp he with h | h
      · rw [h]
      · exfalso
        apply hn.1
        have hbx : bidOf st x = b := by simpa using hx
        exact List.mem_map.mpr ⟨e, h, by rw [hb, hbx]⟩
    · rw [if_neg hx]
      rcases List.mem_cons.mp he with h | h
      · exfalso
        rw [h] at hb
        exact (by simpa using hx : ¬(bidOf st x = b)) hb
      · exact ih hn.2 h

theorem reconcileVals_subset {st : Store} {docId : Val} {vals : List Obj} :
    ∀ {pool : List Obj}, ∀ x ∈ (reconcileVals st docId vals pool).1, x ∈ pool := by
  induction vals with
  | nil =>
    intro pool x hx
    simpa [reconcileVals] using hx
  | cons v rest ih =>
    intro pool x hx
    rw [reconcileVals] at hx
    exact findByBitrixId_snd_subset x (ih x hx)

theorem reconcileVals_pool_cases {st : Store} {docId : Val} {vals : List Obj} :
    ∀ {pool : List Obj}, ∀ x ∈ pool,
      x ∈ (reconcileVals st docId vals pool).1 ∨
        ∃ v ∈ vals, bidOf st x = getF v "bitrixId" := by
  induction vals with
  | nil =>
    intro pool x hx
    exact Or.inl (by simpa [reconcileVals] using hx)
  | cons v rest ih =>
    intro pool x hx
    rcases @findByBitrixId_cover st pool (getF v "bitrixId") x hx with h | h
    · rcases ih x h with h2 | h2
      · exact Or.inl (by rw [reconcileVals]; exact h2)
      · obtain ⟨v', hv', hb⟩ := h2
        exact Or.inr ⟨v', List.mem_cons_of_mem _ hv', hb⟩
    · obtain ⟨_, hb⟩ := findByBitrixId_some h
      exact Or.inr ⟨v, List.mem_cons_self _ _, hb⟩

theorem reconcileVals_created {st : Store} {docId : Val} {vals : List Obj} :
    ∀ {pool : List Obj}, ∀ v ∈ vals,
      (∃ e ∈ pool, bidOf st e = getF v "bitrixId") ∨
        (∀ w ∈ updateAttachedDoc st none (setF v "attachedTo" docId),
          w ∈ (reconcileVals st docId vals pool).2) := by
  induction vals with
  | nil => intro pool v hv; simp at hv
  | cons v0 rest ih =>
    intro pool v hv
    rcases List.mem_cons.mp hv with h | h
    · subst h
      rcases hf : (findByBitrixId st pool (getF v "bitrixId")).1 with _ | e
      · refine Or.inr ?_
        intro w hw
        rw [reconcileVals, hf]
        exact List.mem_append.mpr (Or.inl hw)
      · obtain ⟨hm, hb⟩ := findByBitrixId_some hf
        exact Or.inl ⟨e, hm, hb⟩
    · rcases @ih ((findByBitrixId st pool (getF v0 "bitrixId")).2) v h with h2 | h2
      · obtain ⟨e, he, hb⟩ := h2
        exact Or.inl ⟨e, findByBitrixId_snd_subset e he, hb⟩
      · refine Or.inr ?_
        intro w hw
        rw [reconcileVals]
        exact List.mem_append.mpr (Or.inr (h2 w hw))

theorem reconcileVals_preserved {st : Store} {docId : Val} {vals : List Obj} :
    ∀ {pool : List Obj}, ((pool.map (bidOf st)).Nodup) →
      ∀ e ∈ pool, (∃ v ∈ vals, getF v "bitrixId" = bidOf st e) →
        e ∉ (reconcileVals st docId vals pool).1 := by
  induction vals with
  | nil =>
    intro pool _ e _ hex
    obtain ⟨v, hv, _⟩ := hex
    simp at hv
  | cons v0 rest ih =>
    intro pool hn e he hex
    obtain ⟨v, hv, hb⟩ := hex
    rcases List.mem_cons.mp hv with h | h
    · subst h
      have hfind : (findByBitrixId st pool (getF v "bitrixId")).1 = some e :=
        findByBitrixId_finds_unique hn he hb.symm
      have hnot := findByBitrixId_some_not_snd hn hfind
      intro hc
      rw [reconcileVals] at hc
      exact hnot (reconcileVals_subset e hc)
    · rcases @findByBitrixId_cover st pool (getF v0 "bitrixId") e he with h2 | h2
      · have hn2 : (((findByBitrixId st pool (getF v0 "bitrixId")).2).map (bidOf st)).Nodup :=
          List.Nodup.sublist (List.Sublist.map _ findByBitrixId_snd_sublist) hn
        intro hc
        rw [reconcileVals] at hc
        exact ih hn2 e h2 ⟨v, h, hb⟩ hc
      · have hnot := findByBitrixId_some_not_snd hn h2
        intro hc
        rw [reconcileVals] at hc
        exact hnot (reconcileVals_subset e hc)

theorem classList_aux (cl : Val) :
    ∀ (l : List Obj), (∀ d ∈ l, getF d "_class" = cl) →
      l.foldl (fun acc d =>
        if acc.contains (getF d "_class") then acc else acc ++ [getF d "_class"]) [cl] = [cl] := by
  intro l
  induction l with
  | nil => intro _; rfl
  | cons d rest ih =>
    intro h
    rw [List.foldl_cons]
    rw [show (if [cl].contains (getF d "_class") then [cl]
        else [cl] ++ [getF d "_class"]) = [cl] by
      rw [h d (List.mem_cons_self _ _)]
      simp]
    exact ih (fun d' hd' => h d' (List.mem_cons_of_mem _ hd'))

/-- When every pending sub-document has the same class, the `byClass`
map has exactly that one key. -/
theorem classList_uniform {cl : Val} {extraSync : List Obj} (hne : extraSync ≠ [])
    (huni : ∀ d ∈ extraSync, getF d "_class" = cl) : classList extraSync = [cl] := by
  cases extraSync with
  | nil => exact absurd rfl hne
  | cons d rest =>
    rw [classList, List.foldl_cons]
    rw [show (if ([] : List Val).contains (getF d "_class") then ([] : List Val)
        else [] ++ [getF d "_class"]) = [cl] by
      rw [huni d (List.mem_cons_self _ _)]
      simp]
    exact classList_aux cl rest (fun d' hd' => huni d' (List.mem_cons_of_mem _ hd'))

/-- The reconciliation of a single-class conversion result, spelled out:
the batch is exactly the operations of `reconcileVals` and the direct
channel exactly the removes of the leftover pool. -/
theorem reconcileAll_single {env : Env} {st : Store} {docId cl : Val} {extraSync : List Obj}
    (hcl : isAttachedClass env cl = true) (hne : extraSync ≠ [])
    (huni : ∀ d ∈ extraSync, getF d "_class" = cl) :
    reconcileAll env st docId extraSync =
      (applyBatch st ((reconcileVals st docId extraSync (findAllAttached st cl docId)).1.map
          (fun d => WOp.remove (getF d "_id"))),
        (reconcileVals st docId extraSync (findAllAttached st cl docId)).2,
        (reconcileVals st docId extraSync (findAllAttached st cl docId)).1.map
          (fun d => WOp.remove (getF d "_id"))) := by
  rw [reconcileAll, classList_uniform hne huni, List.foldl_cons, List.foldl_nil]
  simp only [reconcileClass]
  rw [if_pos hcl]
  rw [List.filter_eq_self.mpr (by intro d hd; simp [huni d hd])]
  simp

/-- C3 (amended): for a parent document and an attached-sub-document
class that has at least one pending remote-sourced sub-document,
reconciliation is exhaustive: the batch consists of the update-or-create
operations of the pending loop and the direct channel of exactly the
leftover removes; every pending sub-document is either matched to an
existing local sub-document by its sync-trait remote id or created fresh
(`addCollection` + sync-trait `createMixin`); every fetched local
sub-document whose remote id matches no pending one is removed; and a
local sub-document whose remote id is matched is never removed (identity
continuity).  A class with no pending sub-documents, by contrast, is not
reconciled at all. -/
theorem c3_reconciliation (env : Env) (st : Store) (docId cl : Val) (extraSync : List Obj)
    (hcl : isAttachedClass env cl = true)
    (hne : extraSync ≠ [])
    (huni : ∀ d ∈ extraSync, getF d "_class" = cl)
    (hpool : ((findAllAttached st cl docId).map (bidOf st)).Nodup)
    (hids : ((findAllAttached st cl docId).map (fun d => getF d "_id")).Nodup) :
    (reconcileAll env st docId extraSync).2.1 =
      (reconcileVals st docId extraSync (findAllAttached st cl docId)).2 ∧
    (reconcileAll env st docId extraSync).2.2 =
      (reconcileVals st docId extraSync (findAllAttached st cl docId)).1.map
        (fun d => WOp.remove (getF d "_id")) ∧
    (∀ v ∈ extraSync,
      (∃ e ∈ findAllAttached st cl docId, bidOf st e = getF v "bitrixId") ∨
        (∀ w ∈ updateAttachedDoc st none (setF v "attachedTo" docId),
          w ∈ (reconcileAll env st docId extraSync).2.1)) ∧
    (∀ e ∈ findAllAttached st cl docId,
      (∃ v ∈ extraSync, getF v "bitrixId" = bidOf st e) ∨
        WOp.remove (getF e "_id") ∈ (reconcileAll env st docId extraSync).2.2) ∧
    (∀ e ∈ findAllAttached st cl docId,
      (∃ v ∈ extraSync, getF v "bitrixId" = bidOf st e) →
        WOp.remove (getF e "_id") ∉ (reconcileAll env st docId extraSync).2.2) := by
  have hAll := @reconcileAll_single env st docId cl extraSync hcl hne huni
  refine ⟨by rw [hAll], by rw [hAll], ?_, ?_, ?_⟩
  · intro v hv
    rcases @reconcileVals_created st docId extraSync (findAllAttached st cl docId) v hv with h | h
    · exact Or.inl h
    · refine Or.inr ?_
      intro w hw
      rw [hAll]
      exact h w hw
  · intro e he
    rcases @reconcileVals_pool_cases st docId extraSync (findAllAttached st cl docId) e he with h | h
    · refine Or.inr ?_
      rw [hAll]
      exact List.mem_map.mpr ⟨e, h, rfl⟩
    · obtain ⟨v, hv, hb⟩ := h
      exact Or.inl ⟨v, hv, hb.symm⟩
  · intro e he hex
    have hnot := @reconcileVals_preserved st docId extraSync (findAllAttached st cl docId) hpool e he hex
    rw [hAll]
    intro hc
    obtain ⟨x, hx, hxe⟩ := List.mem_map.mp hc
    simp only [WOp.remove.injEq] at hxe
    have hxpool := reconcileVals_subset x hx
    have : x = e := List.inj_on_of_nodup_map hids hxpool he hxe
    rw [this] at hx
    exact hnot hx

/-- A conversion result for the same record carrying no pending
sub-documents at all. -/
def exResPlain : ConvertResult :=
  { document := exDocRes, mixins := [], extraDocs := [],
    extraSync := [], rawData := Val.vstr "raw", blobs := [] }

/-- C3 counterexample: the previously synced comment `c1` (remote id
`b`, attached to the parent) is absent from the new remote fetch — the
pending set is empty — yet `syncDocument` issues no remove at all and
`c1` survives the merge: a class with no pending sub-documents is never
reconciled, so its orphans are not deleted. -/
theorem c3_counterexample :
    exOrphan ∈ findAllAttached exStore (Val.vstr "chunter:class:Comment") (Val.vstr "M") ∧
    bidOf exStore exOrphan = Val.vstr "b" ∧
    exResPlain.extraSync = [] ∧
    (syncDocument exEnvOk exStore (some exMain) exResPlain 7).direct = [] ∧
    exOrphan ∈ (syncDocument exEnvOk exStore (some exMain) exResPlain 7).store.docs := by
  decide

/-- Witness for `c3_reconciliation`: one pending comment (remote id `z`)
against one existing comment (remote id `b`). -/
theorem c3_reconciliation_witness :
    (isAttachedClass exEnvOk (Val.vstr "chunter:class:Comment") = true ∧
      exResComment.extraSync ≠ [] ∧
      (∀ d ∈ exResComment.extraSync, getF d "_class" = Val.vstr "chunter:class:Comment") ∧
      (((findAllAttached exStore (Val.vstr "chunter:class:Comment") (Val.vstr "M")).map
        (bidOf exStore)).Nodup) ∧
      (((findAllAttached exStore (Val.vstr "chunter:class:Comment") (Val.vstr "M")).map
        (fun d => getF d "_id")).Nodup)) ∧
    ((∀ e ∈ findAllAttached exStore (Val.vstr "chunter:class:Comment") (Val.vstr "M"),
      (∃ v ∈ exResComment.extraSync, getF v "bitrixId" = bidOf exStore e) ∨
        WOp.remove (getF e "_id") ∈
          (reconcileAll exEnvOk exStore (Val.vstr "M") exResComment.extraSync).2.2)) :=
  ⟨⟨by decide, by decide, by decide, by decide, by decide⟩,
    (c3_reconciliation exEnvOk exStore (Val.vstr "M") (Val.vstr "chunter:class:Comment")
      exResComment.extraSync (by decide) (by decide) (by decide) (by decide) (by decide)).2.2.2.1⟩

/-- Is the operation an `addCollection` (creation of an attached
document record)? -/
def isAddCollectionOp : WOp → Bool
  | .addCollection .. => true
  | _ => false

/-- Count of attachment-record creations in an operation list. -/
def countAdd (l : List WOp) : Nat := (l.filter isAddCollectionOp).length

/-- A pending attachment that matches nothing: no existing attachment
carries its remote id and, after the fetch, none matches it by
(name, size, type); its bytes fetch and its upload succeed. -/
def blobFresh (st : Store) (existingBlobs : List Obj) (b : BlobDesc) : Bool :=
  !(blobMatches st existingBlobs b) &&
  (match b.fileData with
   | none => false
   | some f =>
     existingBlobs.all (fun ex => !(nstMatch ex (fetchEd f b.ed))) && b.uploadResult.isSome)

theorem scan_nomatch {st : Store} {existingBlobs : List Obj} {ed2 : Obj}
    (h : ∀ ex ∈ existingBlobs, nstMatch ex ed2 = false) :
    ∀ w0 : List WOp,
      existingBlobs.foldl
        (fun (p : List WOp × Bool) ex =>
          if nstMatch ex ed2 then
            if !p.2 then (p.1 ++ updateAttachedDoc st (some ex) ed2, true)
            else (p.1 ++ [WOp.remove (getF ex "_id")], p.2)
          else p)
        (w0, false) = (w0, false) := by
  induction existingBlobs with
  | nil => intro w0; rfl
  | cons ex rest ih =>
    intro w0
    rw [List.foldl_cons]
    rw [show (if nstMatch ex ed2 then
        (if !(false : Bool) then (w0 ++ updateAttachedDoc st (some ex) ed2, true)
          else (w0 ++ [WOp.remove (getF ex "_id")], false))
        else (w0, false)) = (w0, false) by
      rw [h ex (List.mem_cons_self _ _)]
      simp]
    exact ih (fun e he => h e (List.mem_cons_of_mem _ he)) w0

/-- A fresh pending attachment always uploads and always creates a new
record: the step appends exactly one upload and one
`addCollection` + `createMixin` pair. -/
theorem processBlob_fresh {st : Store} {existingBlobs : List Obj} {b : BlobDesc}
    (hf : blobFresh st existingBlobs b = true) (acc : List WOp × List WOp) :
    (processBlob st existingBlobs acc b).2.length = acc.2.length + 1 ∧
    countAdd (processBlob st existingBlobs acc b).1 = countAdd acc.1 + 1 := by
  rw [blobFresh, Bool.and_eq_true] at hf
  obtain ⟨hm, hrest⟩ := hf
  rw [Bool.not_eq_true'] at hm
  rw [processBlob, hm]
  simp only [Bool.false_eq_true, if_false]
  rcases hfd : b.fileData with _ | f
  · rw [hfd] at hrest
    simp at hrest
  · rw [hfd] at hrest
    simp only [Bool.and_eq_true, List.all_eq_true] at hrest
    obtain ⟨hall, hup⟩ := hrest
    have hscan := @scan_nomatch st existingBlobs (fetchEd f b.ed)
      (fun ex he => by
        have := hall ex he
        rwa [Bool.not_eq_true'] at this) acc.1
    simp only
    rw [hscan]
    simp only [Bool.false_eq_true, if_false]
    rcases hu : b.uploadResult with _ | uuid
    · rw [hu] at hup
      simp at hup
    · constructor
      · simp
      · rw [countAdd, countAdd]
        rw [List.filter_append]
        simp [updateAttachedDoc, isAddCollectionOp]

/-- C6 (amended): pending attachments de-duplicate only against the
attachments that existed before the merge — the snapshot is not extended
with records created during the loop — so every pending attachment with
no pre-existing match (by remote id or by name/size/type) triggers its
own upload and its own new attachment record: n fresh descriptors give
n uploads and n records, even when they all carry identical
(name, size, type). -/
theorem c6_dedup_scope (st : Store) (existingBlobs : List Obj) (blobs : List BlobDesc)
    (h : ∀ b ∈ blobs, blobFresh st existingBlobs b = true) :
    (processBlobs st existingBlobs blobs).2.length = blobs.length ∧
    countAdd (processBlobs st existingBlobs blobs).1 = blobs.length := by
  rw [processBlobs]
  suffices hgen : ∀ (bs : List BlobDesc) (acc : List WOp × List WOp),
      (∀ b ∈ bs, blobFresh st existingBlobs b = true) →
      (bs.foldl (processBlob st existingBlobs) acc).2.length = acc.2.length + bs.length ∧
      countAdd (bs.foldl (processBlob st existingBlobs) acc).1 = countAdd acc.1 + bs.length by
    have := hgen blobs ([], []) h
    simpa [countAdd] using this
  intro bs
  induction bs with
  | nil => intro acc _; simp
  | cons b rest ih =>
    intro acc hb
    rw [List.foldl_cons]
    have hstep := processBlob_fresh (hb b (List.mem_cons_self _ _)) acc
    have hrest := ih (processBlob st existingBlobs acc b)
      (fun b' hb' => hb b' (List.mem_cons_of_mem _ hb'))
    rw [hrest.1, hrest.2, hstep.1, hstep.2]
    constructor <;> simp <;> omega

/-- A pending attachment descriptor as `downloadComments` registers it:
remote id `attach-<bid>`, fetch and upload succeeding. -/
def exBlob (i bid : String) : BlobDesc :=
  { ed := [("_id", Val.vstr i), ("_class", attachmentClassName),
      ("attachedTo", Val.vstr "c9"), ("attachedToClass", Val.vstr "chunter:class:Comment"),
      ("bitrixId", Val.vstr bid), ("collection", Val.vstr "attachments"),
      ("file", Val.vstr ""), ("lastModified", Val.vint 0), ("modifiedBy", Val.vstr "u"),
      ("modifiedOn", Val.vint 5), ("name", Val.vstr "f.txt"), ("size", Val.vint 3),
      ("space", Val.vstr "S"), ("type", Val.vstr "file")],
    fileData := some { name := "f.txt", size := 3, type := "text", lastModified := 9 },
    genId := Val.vstr ("g" ++ i), uploadResult := some (Val.vstr ("uuid" ++ i)) }

/-- A conversion result with two pending attachments of identical
(name, size, type). -/
def exResBlobs : ConvertResult :=
  { document := exDocRes, mixins := [], extraDocs := [], extraSync := [],
    rawData := Val.vstr "raw", blobs := [exBlob "a1" "attach-1", exBlob "a2" "attach-2"] }

/-- C6 counterexample: two pending attachments with identical
(name, size, type) and no existing local attachment at all — the merge
performs two uploads and creates two attachment records, not one. -/
theorem c6_counterexample :
    getF (exBlob "a1" "attach-1").ed "name" = getF (exBlob "a2" "attach-2").ed "name" ∧
    getF (exBlob "a1" "attach-1").ed "size" = getF (exBlob "a2" "attach-2").ed "size" ∧
    getF (exBlob "a1" "attach-1").ed "type" = getF (exBlob "a2" "attach-2").ed "type" ∧
    findAllAttached exStore attachmentClassName (Val.vstr "M") = [] ∧
    (syncDocument exEnvOk exStore (some exMain) exResBlobs 7).uploads.length = 2 ∧
    countAdd (syncDocument exEnvOk exStore (some exMain) exResBlobs 7).batch = 2 := by
  decide

/-- Witness for `c6_dedup_scope` on the two identical fresh pending
attachments. -/
theorem c6_dedup_scope_witness :
    (∀ b ∈ [exBlob "a1" "attach-1", exBlob "a2" "attach-2"],
      blobFresh exStore [] b = true) ∧
    ((processBlobs exStore [] [exBlob "a1" "attach-1", exBlob "a2" "attach-2"]).2.length = 2 ∧
      countAdd (processBlobs exStore [] [exBlob "a1" "attach-1", exBlob "a2" "attach-2"]).1 = 2) :=
  ⟨by decide,
    c6_dedup_scope exStore [] [exBlob "a1" "attach-1", exBlob "a2" "attach-2"] (by decide)⟩

/-! ### Further object lemmas, towards the idempotence of `syncDocument` -/

theorem hasKey_setF (o : Obj) (k : String) (v : Val) (k' : String) :
    hasKey (setF o k v) k' = (decide (k' = k) || hasKey o k') := by
  induction o with
  | nil =>
    simp only [setF, hasKey]
    by_cases h : k = k'
    · subst h
      simp
    · have h' : ¬(k' = k) := fun hh => h hh.symm
      simp [h, h']
  | cons kv rest ih =>
    obtain ⟨a, b⟩ := kv
    simp only [setF]
    by_cases hak : a = k
    · subst hak
      rw [if_pos rfl]
      simp only [hasKey]
      by_cases h : a = k'
      · subst h
        simp
      · have h' : ¬(k' = a) := fun hh => h hh.symm
        simp [h, h']
    · rw [if_neg hak]
      simp only [hasKey, ih]
      by_cases h1 : a = k' <;> by_cases h2 : k' = k <;> simp [h1, h2]

theorem hasKey_applyUpdate (o u : Obj) (k : String) :
    hasKey (applyUpdate o u) k = (hasKey o k || hasKey u k) := by
  induction u generalizing o with
  | nil => simp [applyUpdate, hasKey]
  | cons kv rest ih =>
    obtain ⟨a, b⟩ := kv
    have step : applyUpdate o ((a, b) :: rest) = applyUpdate (setF o a b) rest := rfl
    rw [step, ih (setF o a b), hasKey_setF]
    simp only [hasKey]
    by_cases h1 : k = a
    · subst h1
      by_cases h2 : hasKey o k <;> by_cases h3 : hasKey rest k <;> simp [h2, h3]
    · have h1' : ¬(a = k) := fun hh => h1 hh.symm
      by_cases h2 : hasKey o k <;> by_cases h3 : hasKey rest k <;> simp [h1, h1', h2, h3]

theorem getF_applyUpdate_not_hasKey {o u : Obj} {k : String} (h : hasKey u k = false) :
    getF (applyUpdate o u) k = getF o k := by
  induction u generalizing o with
  | nil => rfl
  | cons kv rest ih =>
    obtain ⟨a, b⟩ := kv
    have hrest : hasKey rest k = false := by
      simp only [hasKey, Bool.or_eq_false_iff] at h
      exact h.2
    have hka : ¬(k = a) := by
      intro hc
      subst hc
      simp [hasKey] at h
    have step : applyUpdate o ((a, b) :: rest) = applyUpdate (setF o a b) rest := rfl
    rw [step, ih hrest, getF_setF, if_neg hka]

theorem hasKey_fieldDiff {doc raw : Obj} {k : String}
    (h : hasKey (fieldDiff doc raw) k = true) : hasKey raw k = true := by
  have := mem_of_hasKey h
  exact hasKey_of_mem (List.mem_of_mem_filter this)

theorem fieldDiff_append_left {a b raw : Obj}
    (h : ∀ kv ∈ raw, skipKeys.contains kv.1 = false → hasKey a kv.1 = true) :
    fieldDiff (a ++ b) raw = fieldDiff a raw := by
  rw [fieldDiff, fieldDiff]
  apply List.filter_congr
  rintro ⟨k, v⟩ hkv
  by_cases hs : skipKeys.contains k
  · have hs' : k ∈ skipKeys := by simpa using hs
    simp [hs']
  · rw [getF_append, if_pos (h (k, v) hkv (by simpa using hs))]

theorem fieldDiff_self {raw : Obj} (hn : (raw.map Prod.fst).Nodup) :
    fieldDiff raw raw = [] := by
  rw [fieldDiff, List.filter_eq_nil_iff]
  rintro ⟨k, v⟩ hkv
  rw [getF_eq_of_mem hn hkv]
  simp

theorem find?_map_pres {α : Type} (g : α → α) (p : α → Bool)
    (hp : ∀ x, p (g x) = p x) (l : List α) :
    (l.map g).find? p = (l.find? p).map g := by
  induction l with
  | nil => rfl
  | cons x rest ih =>
    simp only [List.map_cons]
    by_cases h : p x
    · rw [List.find?_cons_of_pos _ (by rw [hp]; exact h), List.find?_cons_of_pos _ h]
      rfl
    · rw [List.find?_cons_of_neg _ (by rw [hp]; simpa using h),
        List.find?_cons_of_neg _ (by simpa using h)]
      exact ih

theorem find?_unique {α β : Type} [BEq β] [LawfulBEq β] (f : α → β) {l : List α}
    (hn : (l.map f).Nodup) {x : α} (hx : x ∈ l) :
    l.find? (fun y => f y == f x) = some x := by
  induction l with
  | nil => simp at hx
  | cons a rest ih =>
    simp only [List.map_cons, List.nodup_cons] at hn
    rcases List.mem_cons.mp hx with h | h
    · subst h
      rw [List.find?_cons_of_pos _ (by simp)]
    · rw [List.find?_cons_of_neg _ (by
        simp only [beq_eq_false_iff_ne, ne_eq, beq_iff_eq]
        intro hc
        exact hn.1 (List.mem_map.mpr ⟨x, h, hc.symm⟩))]
      exact ih hn.2 h

theorem getMixinData_congr {st st' : Store} (h : st.mixins = st'.mixins) (id : Val) (m : String) :
    getMixinData st id m = getMixinData st' id m := by
  rw [getMixinData, getMixinData, h]

theorem hasMixin_congr {st st' : Store} (h : st.mixins = st'.mixins) (id : Val) (m : String) :
    hasMixin st id m = hasMixin st' id m := by
  rw [hasMixin, hasMixin, h]

theorem getMixinData_applyBOp_createMixin (st : Store) (i : Val) (mi : String) (d : Obj)
    (id : Val) (m : String) :
    getMixinData (applyBOp st (.createMixin i mi d)) id m =
      if hasMixin st id m then getMixinData st id m
      else if i == id && mi == m then d else getMixinData st id m := by
  simp only [applyBOp, getMixinData, hasMixin]
  rw [List.find?_append]
  rcases hf : st.mixins.find? (fun r => r.1 == id && r.2.1 == m) with _ | r
  · rw [hf, Option.none_or]
    simp only [Option.isSome_none, Bool.false_eq_true, if_false]
    by_cases hc : (i == id && mi == m) = true
    · rw [List.find?_cons_of_pos _ (by simpa using hc), if_pos hc]
    · rw [List.find?_cons_of_neg _ (by simpa using hc), if_neg hc, List.find?_nil]
  · rw [hf]
    simp [Option.or]

theorem hasMixin_applyBOp_createMixin (st : Store) (i : Val) (mi : String) (d : Obj)
    (id : Val) (m : String) :
    hasMixin (applyBOp st (.createMixin i mi d)) id m =
      (hasMixin st id m || (i == id && mi == m)) := by
  simp only [applyBOp, hasMixin]
  rw [List.find?_append]
  rcases hf : st.mixins.find? (fun r => r.1 == id && r.2.1 == m) with _ | r
  · rw [hf, Option.none_or]
    simp only [Option.isSome_none, Bool.false_or]
    by_cases hc : (i == id && mi == m) = true
    · rw [List.find?_cons_of_pos _ (by simpa using hc), hc]
      rfl
    · rw [List.find?_cons_of_neg _ (by simpa using hc), List.find?_nil]
      rw [show (i == id && mi == m) = false by simpa using hc]
      rfl
  · rw [hf]
    simp [Option.or]

theorem getMixinData_applyBOp_updateMixin (st : Store) (i : Val) (mi : String) (u : Obj)
    (id : Val) (m : String) :
    getMixinData (applyBOp st (.updateMixin i mi u)) id m =
      if i == id && mi == m then
        (if hasMixin st id m then applyUpdate (getMixinData st id m) u else getMixinData st id m)
      else getMixinData st id m := by
  simp only [applyBOp, getMixinData, hasMixin]
  rw [find?_map_pres _ _ (by
    intro r
    by_cases hr : (r.1 == i && r.2.1 == mi) = true <;> simp [hr])]
  rcases hf : st.mixins.find? (fun r => r.1 == id && r.2.1 == m) with _ | r
  · rw [hf]
    simp
  · rw [hf]
    simp only [Option.map_some', Option.isSome_some, if_true]
    have hr := List.find?_some hf
    rw [Bool.and_eq_true] at hr
    by_cases hc : (i == id && mi == m) = true
    · rw [if_pos hc]
      rw [Bool.and_eq_true] at hc
      have h1 : (r.1 == i) = true := by
        simp only [beq_iff_eq] at hr hc ⊢
        rw [hr.1, ← hc.1]
      have h2 : (r.2.1 == mi) = true := by
        simp only [beq_iff_eq] at hr hc ⊢
        rw [hr.2, ← hc.2]
      simp [h1, h2]
    · rw [if_neg hc]
      have hno : (r.1 == i && r.2.1 == mi) = false := by
        by_contra hcc
        rw [Bool.not_eq_false, Bool.and_eq_true] at hcc
        apply hc
        rw [Bool.and_eq_true]
        simp only [beq_iff_eq] at hr hcc ⊢
        constructor
        · rw [← hcc.1, hr.1]
        · rw [← hcc.2, hr.2]
      simp [hno]

theorem hasMixin_applyBOp_updateMixin (st : Store) (i : Val) (mi : String) (u : Obj)
    (id : Val) (m : String) :
    hasMixin (applyBOp st (.updateMixin i mi u)) id m = hasMixin st id m := by
  simp only [applyBOp, hasMixin]
  rw [find?_map_pres _ _ (by
    intro r
    by_cases hr : (r.1 == i && r.2.1 == mi) = true <;> simp [hr])]
  rcases hf : st.mixins.find? (fun r => r.1 == id && r.2.1 == m) with _ | r <;> rw [hf] <;> simp

theorem processBlobs_nil (st : Store) (existingBlobs : List Obj) :
    processBlobs st existingBlobs [] = ([], []) := rfl

theorem reconcileAll_nil (env : Env) (st : Store) (docId : Val) :
    reconcileAll env st docId [] = (st, [], []) := rfl

theorem updateDoc_fst (doc raw : Obj) :
    (updateDoc doc raw).1 = applyUpdate doc (fieldDiff doc raw) := by
  rw [updateDoc]
  by_cases h : fieldDiff doc raw = []
  · rw [if_pos h, h]
    rfl
  · rw [if_neg h]

/-- `syncDocument` on a conversion result with no extra documents, no
pending sub-documents, no pending attachments and no conversion mixins:
only the primary-document diff and the sync-trait mixin write remain. -/
theorem syncDocument_simple (env : Env) (st : Store) (e : Obj) (res : ConvertResult) (now : Int)
    (hfail : env.failAttachFind = false) (hx1 : res.extraDocs = []) (hx2 : res.extraSync = [])
    (hx3 : res.blobs = []) (hx4 : res.mixins = []) :
    syncDocument env st (some e) res now =
      { store := applyBatch st
          ((updateDoc e (setF res.document "_id" (getF e "_id"))).2 ++
            updateMixins st [(syncMixinName, syncMixinData res now)]
              (updateDoc e (setF res.document "_id" (getF e "_id"))).1
              (setF res.document "_id" (getF e "_id"))),
        batch := (updateDoc e (setF res.document "_id" (getF e "_id"))).2 ++
            updateMixins st [(syncMixinName, syncMixinData res now)]
              (updateDoc e (setF res.document "_id" (getF e "_id"))).1
              (setF res.document "_id" (getF e "_id")),
        direct := [], uploads := [], committed := true } := by
  rw [syncDocument]
  rw [hx1, hx2, hx3, hx4, hfail]
  simp only [setMixinEntry, List.any_nil, Bool.false_eq_true, if_false, List.nil_append,
    List.map_nil, reconcileAll_nil, processBlobs_nil, List.append_nil, Bool.not_eq_true]

theorem updateDoc_snd_nil {doc raw : Obj} (h : fieldDiff doc raw = []) :
    (updateDoc doc raw).2 = [] := by
  rw [updateDoc, if_pos h]

theorem updateDoc_snd {doc raw : Obj} (h : ¬(fieldDiff doc raw = [])) :
    (updateDoc doc raw).2 = [WOp.update (getF doc "_id") (fieldDiff doc raw)] := by
  rw [updateDoc, if_neg h]

theorem fieldDiff_skip_key {doc raw : Obj} {k : String} (hk : k ∈ skipKeys) :
    hasKey (fieldDiff doc raw) k = false := by
  by_contra hc
  rw [Bool.not_eq_false] at hc
  have hp := (fieldDiff_mem.mp (mem_of_hasKey hc)).2
  rw [Bool.and_eq_true, Bool.and_eq_true] at hp
  have hcf := hp.1.1
  rw [Bool.not_eq_true'] at hcf
  have hmem : k ∈ skipKeys := hk
  have : skipKeys.contains k = true := by
    simp only [List.contains_eq_any_beq, List.any_eq_true]
    exact ⟨k, hmem, by simp⟩
  rw [this] at hcf
  simp at hcf

theorem mem_foldl_append {α β : Type} (f : β → List α) (l : List β) :
    ∀ (a : List α) (w : α),
      w ∈ l.foldl (fun acc p => acc ++ f p) a ↔ w ∈ a ∨ ∃ p ∈ l, w ∈ f p := by
  induction l with
  | nil => intro a w; simp
  | cons p rest ih =>
    intro a w
    rw [List.foldl_cons, ih]
    simp only [List.mem_append, List.mem_cons]
    constructor
    · rintro ((h | h) | ⟨q, hq, hw⟩)
      · exact Or.inl h
      · exact Or.inr ⟨p, Or.inl rfl, h⟩
      · exact Or.inr ⟨q, Or.inr hq, hw⟩
    · rintro (h | ⟨q, (hq | hq), hw⟩)
      · exact Or.inl (Or.inl h)
      · exact Or.inl (Or.inr (hq ▸ hw))
      · exact Or.inr ⟨q, hq, hw⟩

theorem updateMixin_ops_shape (st : Store) (doc raw : Obj) (m : String) :
    ∀ w ∈ updateMixin st doc raw m,
      (∃ i d, w = WOp.createMixin i m d) ∨ (∃ i u', w = WOp.updateMixin i m u') := by
  intro w hw
  rw [updateMixin] at hw
  by_cases h1 : hasMixin st (getF doc "_id") m
  · rw [h1] at hw
    simp only [Bool.not_true, Bool.false_eq_true, if_false] at hw
    by_cases h2 : fieldDiff doc raw = []
    · rw [if_pos h2] at hw
      simp at hw
    · rw [if_neg h2] at hw
      simp only [List.mem_singleton] at hw
      exact Or.inr ⟨getF doc "_id", fieldDiff doc raw, hw⟩
  · rw [Bool.not_eq_true] at h1
    rw [h1] at hw
    simp only [Bool.not_false, if_true, List.mem_singleton] at hw
    exact Or.inl ⟨getF doc "_id", raw, hw⟩

theorem updateMixins_ops_shape (st : Store) (mixins : List (String × Obj)) (mainObj docu : Obj) :
    ∀ w ∈ updateMixins st mixins mainObj docu,
      (∃ i m d, w = WOp.createMixin i m d) ∨ (∃ i m u', w = WOp.updateMixin i m u') := by
  intro w hw
  rw [updateMixins] at hw
  rw [mem_foldl_append
    (fun p => if !(hasMixin st (getF mainObj "_id") p.1) then
        [WOp.createMixin (getF docu "_id") p.1 p.2]
      else updateMixin st (asMixin st mainObj p.1) p.2 p.1) mixins []] at hw
  rcases hw with h | ⟨p, _, hw⟩
  · simp at h
  · by_cases h1 : hasMixin st (getF mainObj "_id") p.1
    · rw [h1] at hw
      simp only [Bool.not_true, Bool.false_eq_true, if_false] at hw
      rcases updateMixin_ops_shape st (asMixin st mainObj p.1) p.2 p.1 w hw with ⟨i, d, hd⟩ | ⟨i, u', hu⟩
      · exact Or.inl ⟨i, p.1, d, hd⟩
      · exact Or.inr ⟨i, p.1, u', hu⟩
    · rw [Bool.not_eq_true] at h1
      rw [h1] at hw
      simp only [Bool.not_false, if_true, List.mem_singleton] at hw
      exact Or.inl ⟨getF docu "_id", p.1, p.2, hw⟩

theorem docs_applyBatch_mixinops (ops : List WOp)
    (h : ∀ w ∈ ops, (∃ i m d, w = WOp.createMixin i m d) ∨ (∃ i m u', w = WOp.updateMixin i m u')) :
    ∀ st : Store, (applyBatch st ops).docs = st.docs := by
  induction ops with
  | nil => intro st; rfl
  | cons w rest ih =>
    intro st
    rw [applyBatch, List.foldl_cons]
    have hw : (applyBOp st w).docs = st.docs := by
      rcases h w (List.mem_cons_self _ _) with ⟨i, m, d, hd⟩ | ⟨i, m, u', hu⟩
      · rw [hd]; rfl
      · rw [hu]; rfl
    rw [show List.foldl applyBOp (applyBOp st w) rest = applyBatch (applyBOp st w) rest from rfl]
    rw [ih (fun w' hw' => h w' (List.mem_cons_of_mem _ hw')) (applyBOp st w), hw]

theorem mixins_applyBatch_updateDoc (st : Store) (doc raw : Obj) :
    (applyBatch st (updateDoc doc raw).2).mixins = st.mixins := by
  by_cases h : fieldDiff doc raw = []
  · rw [updateDoc_snd_nil h]
    rfl
  · rw [updateDoc_snd h]
    rfl

theorem updateMixins_single (st : Store) (mainObj docu : Obj) (m : String) (mv : Obj) :
    updateMixins st [(m, mv)] mainObj docu =
      if hasMixin st (getF mainObj "_id") m then updateMixin st (asMixin st mainObj m) mv m
      else [WOp.createMixin (getF docu "_id") m mv] := by
  rw [updateMixins, List.foldl_cons, List.foldl_nil]
  by_cases h : hasMixin st (getF mainObj "_id") m
  · rw [h]
    simp
  · rw [Bool.not_eq_true] at h
    rw [h]
    simp [h]

theorem applyBatch_append (st : Store) (a b : List WOp) :
    applyBatch st (a ++ b) = applyBatch (applyBatch st a) b := by
  rw [applyBatch, applyBatch, applyBatch, List.foldl_append]

theorem foldl_append_init {α β : Type} (f : β → List α) :
    ∀ (l : List β) (a : List α),
      l.foldl (fun acc p => acc ++ f p) a = a ++ l.foldl (fun acc p => acc ++ f p) [] := by
  intro l
  induction l with
  | nil => intro a; simp
  | cons p rest ih =>
    intro a
    rw [List.foldl_cons, List.foldl_cons, ih (a ++ f p), ih ([] ++ f p)]
    simp

theorem updateMixins_cons (st : Store) (mainObj docu : Obj) (p : String × Obj)
    (L : List (String × Obj)) :
    updateMixins st (p :: L) mainObj docu =
      (if !(hasMixin st (getF mainObj "_id") p.1) then
          [WOp.createMixin (getF docu "_id") p.1 p.2]
        else updateMixin st (asMixin st mainObj p.1) p.2 p.1) ++
        updateMixins st L mainObj docu := by
  rw [updateMixins, updateMixins, List.foldl_cons, List.nil_append]
  exact foldl_append_init _ L _

theorem setMixinEntry_notmem (l : List (String × Obj)) (k : String) (v : Obj)
    (h : ∀ p ∈ l, p.1 ≠ k) : setMixinEntry l k v = l ++ [(k, v)] := by
  have hc : l.any (·.1 == k) = false := by
    rw [List.any_eq_false]
    intro p hp
    simpa using h p hp
  rw [setMixinEntry, hc]
  simp

/-- Contextual idempotence of the field diff: when the diff is computed
against a mixin proxy `row ++ doc` and its update is applied to the row
alone (the effect of `applyOp.updateMixin`), diffing the updated proxy
against the same raw object again yields nothing. -/
theorem fieldDiff_applyUpdate_ctx (m0 c raw : Obj) (hn : (raw.map Prod.fst).Nodup) :
    fieldDiff (applyUpdate m0 (fieldDiff (m0 ++ c) raw) ++ c) raw = [] := by
  set u1 := fieldDiff (m0 ++ c) raw with hu1
  have hu : (u1.map Prod.fst).Nodup :=
    List.Nodup.sublist (List.Sublist.map _ (List.filter_sublist raw)) hn
  rw [fieldDiff, List.filter_eq_nil_iff]
  rintro ⟨k, v⟩ hkv hP
  rw [Bool.and_eq_true, Bool.and_eq_true] at hP
  obtain ⟨⟨hskip, hne⟩, hnn⟩ := hP
  rw [Bool.not_eq_true'] at hskip hne
  have hne' : getF (applyUpdate m0 u1 ++ c) k ≠ v := by
    intro hc
    rw [hc] at hne
    simp at hne
  apply hne'
  rw [getF_append, hasKey_applyUpdate]
  by_cases hk : hasKey u1 k
  · rw [hk, Bool.or_true]
    simp only [if_true]
    rw [getF_applyUpdate _ _ hu, if_pos hk]
    have hmem := mem_of_hasKey hk
    have hraw : (k, getF u1 k) ∈ raw := List.mem_of_mem_filter (hu1 ▸ hmem)
    have h1 := getF_eq_of_mem hn hraw
    have h2 := getF_eq_of_mem hn hkv
    exact h1.symm.trans h2
  · have hnotin : (k, v) ∉ u1 := fun hc => absurd (hasKey_of_mem hc) (by simp [hk])
    have hold : getF (m0 ++ c) k = v := by
      by_contra hc
      apply hnotin
      rw [hu1]
      refine fieldDiff_mem.mpr ⟨hkv, ?_⟩
      rw [Bool.and_eq_true, Bool.and_eq_true]
      refine ⟨⟨by rw [Bool.not_eq_true']; exact hskip, ?_⟩, hnn⟩
      rw [Bool.not_eq_true']
      simp [hc]
    rw [Bool.not_eq_true] at hk
    rw [hk, Bool.or_false]
    rw [getF_append] at hold
    by_cases hm : hasKey m0 k
    · rw [hm]
      simp only [if_true]
      rw [getF_applyUpdate _ _ hu, hk]
      simp only [Bool.false_eq_true, if_false]
      rw [if_pos hm] at hold
      exact hold
    · rw [Bool.not_eq_true] at hm
      rw [hm]
      simp only [Bool.false_eq_true, if_false]
      rw [hm] at hold
      simp only [Bool.false_eq_true, if_false] at hold
      exact hold

/-- Mixin operations that name a different mixin class never touch a
given mixin row. -/
theorem mixRow_frame (id : Val) (m : String) :
    ∀ W : List WOp,
      (∀ w ∈ W, (∃ i m' d, m' ≠ m ∧ w = WOp.createMixin i m' d) ∨
        (∃ i m' u, m' ≠ m ∧ w = WOp.updateMixin i m' u)) →
      ∀ s : Store,
        getMixinData (applyBatch s W) id m = getMixinData s id m ∧
          hasMixin (applyBatch s W) id m = hasMixin s id m := by
  intro W
  induction W with
  | nil => intro _ s; exact ⟨rfl, rfl⟩
  | cons w rest ih =>
    intro hW s
    have hstep : applyBatch s (w :: rest) = applyBatch (applyBOp s w) rest := rfl
    rw [hstep]
    have hone : getMixinData (applyBOp s w) id m = getMixinData s id m ∧
        hasMixin (applyBOp s w) id m = hasMixin s id m := by
      rcases hW w (List.mem_cons_self _ _) with ⟨i, m', d, hm', hw⟩ | ⟨i, m', u, hm', hw⟩
      · subst hw
        have hmm : (m' == m) = false := by simpa using hm'
        constructor
        · rw [getMixinData_applyBOp_createMixin, hmm, Bool.and_false]
          simp only [Bool.false_eq_true, if_false, ite_self]
        · rw [hasMixin_applyBOp_createMixin, hmm, Bool.and_false, Bool.or_false]
      · subst hw
        have hmm : (m' == m) = false := by simpa using hm'
        constructor
        · rw [getMixinData_applyBOp_updateMixin, hmm, Bool.and_false]
          simp only [Bool.false_eq_true, if_false]
        · rw [hasMixin_applyBOp_updateMixin]
    have hrest := ih (fun w' hw' => hW w' (List.mem_cons_of_mem _ hw')) (applyBOp s w)
    exact ⟨hrest.1.trans hone.1, hrest.2.trans hone.2⟩

/-- Every operation issued by `updateMixins` names one of the mixins of
its input list. -/
theorem updateMixins_ops_name (st : Store) (L : List (String × Obj)) (mainObj docu : Obj) :
    ∀ w ∈ updateMixins st L mainObj docu,
      ∃ p ∈ L, (∃ i d, w = WOp.createMixin i p.1 d) ∨ (∃ i u, w = WOp.updateMixin i p.1 u) := by
  intro w hw
  rw [updateMixins] at hw
  rw [mem_foldl_append (fun p => if !(hasMixin st (getF mainObj "_id") p.1) then
        [WOp.createMixin (getF docu "_id") p.1 p.2]
      else updateMixin st (asMixin st mainObj p.1) p.2 p.1) L []] at hw
  rcases hw with h | ⟨p, hp, hw⟩
  · simp at h
  · refine ⟨p, hp, ?_⟩
    by_cases h1 : hasMixin st (getF mainObj "_id") p.1
    · rw [h1] at hw
      simp only [Bool.not_true, Bool.false_eq_true, if_false] at hw
      exact updateMixin_ops_shape st (asMixin st mainObj p.1) p.2 p.1 w hw
    · rw [Bool.not_eq_true] at h1
      rw [h1] at hw
      simp only [Bool.not_false, if_true, List.mem_singleton] at hw
      exact Or.inl ⟨getF docu "_id", p.2, hw⟩

/-- Effect of one `updateMixins` entry on the mixin row it names: after
the batch commits, the row exists, carries no `_id` key, and diffs to
nothing against the same payload through the `hierarchy.as` proxy. -/
theorem mixEntry_effect (st : Store) (mainObj docu : Obj) (mainId : Val)
    (hObjId : getF mainObj "_id" = mainId) (hDocuId : getF docu "_id" = mainId)
    (p : String × Obj)
    (hpn : (p.2.map Prod.fst).Nodup) (hpid : hasKey p.2 "_id" = false)
    (hrowid : hasMixin st mainId p.1 = true →
      hasKey (getMixinData st mainId p.1) "_id" = false)
    (s : Store)
    (hagree : getMixinData s mainId p.1 = getMixinData st mainId p.1 ∧
      hasMixin s mainId p.1 = hasMixin st mainId p.1)
    (W : List WOp)
    (hW : W = if !(hasMixin st (getF mainObj "_id") p.1) then
        [WOp.createMixin (getF docu "_id") p.1 p.2]
      else updateMixin st (asMixin st mainObj p.1) p.2 p.1) :
    hasMixin (applyBatch s W) mainId p.1 = true ∧
    hasKey (getMixinData (applyBatch s W) mainId p.1) "_id" = false ∧
    fieldDiff (getMixinData (applyBatch s W) mainId p.1 ++ mainObj) p.2 = [] := by
  by_cases hM : hasMixin st mainId p.1
  · set m0 := getMixinData st mainId p.1 with hm0d
    have hm0id : hasKey m0 "_id" = false := hrowid hM
    have hasM : asMixin st mainObj p.1 = m0 ++ mainObj := by
      rw [asMixin, hObjId]
    have hproxyId : getF (m0 ++ mainObj) "_id" = mainId := by
      rw [getF_append, hm0id]
      simp only [Bool.false_eq_true, if_false]
      exact hObjId
    have hproxyId2 : getF (asMixin st mainObj p.1) "_id" = mainId := by
      rw [hasM]
      exact hproxyId
    set u1 := fieldDiff (m0 ++ mainObj) p.2 with hu1
    have hWe : W = if u1 = [] then [] else [WOp.updateMixin mainId p.1 u1] := by
      rw [hW, hObjId, hM]
      simp only [Bool.not_true, Bool.false_eq_true, if_false]
      rw [updateMixin, hproxyId2, hM]
      simp only [Bool.not_true, Bool.false_eq_true, if_false]
      rw [hasM]
    have hu1id : hasKey u1 "_id" = false := by
      by_contra hc
      rw [Bool.not_eq_false] at hc
      have := hasKey_fieldDiff (hu1 ▸ hc)
      rw [hpid] at this
      simp at this
    have hrow : getMixinData (applyBatch s W) mainId p.1 = applyUpdate m0 u1 ∧
        hasMixin (applyBatch s W) mainId p.1 = true := by
      by_cases hu1e : u1 = []
      · rw [hWe, if_pos hu1e, hu1e]
        constructor
        · rw [show applyBatch s [] = s from rfl]
          rw [show applyUpdate m0 [] = m0 from rfl]
          exact hagree.1
        · rw [show applyBatch s [] = s from rfl, hagree.2]
          exact hM
      · rw [hWe, if_neg hu1e]
        rw [show applyBatch s [WOp.updateMixin mainId p.1 u1] =
          applyBOp s (.updateMixin mainId p.1 u1) from rfl]
        constructor
        · rw [getMixinData_applyBOp_updateMixin, if_pos (by simp), hagree.2, hM, if_pos rfl,
            hagree.1]
        · rw [hasMixin_applyBOp_updateMixin, hagree.2]
          exact hM
    have hid1 : hasKey (applyUpdate m0 u1) "_id" = false := by
      rw [hasKey_applyUpdate, hm0id, hu1id]
      rfl
    refine ⟨hrow.2, ?_, ?_⟩
    · rw [hrow.1]
      exact hid1
    · rw [hrow.1, hu1]
      exact fieldDiff_applyUpdate_ctx m0 mainObj p.2 hpn
  · rw [Bool.not_eq_true] at hM
    have hWe : W = [WOp.createMixin mainId p.1 p.2] := by
      rw [hW, hObjId, hM, hDocuId]
      simp only [Bool.not_false, if_true]
    have hsM : hasMixin s mainId p.1 = false := by
      rw [hagree.2]
      exact hM
    have hrow : getMixinData (applyBatch s W) mainId p.1 = p.2 ∧
        hasMixin (applyBatch s W) mainId p.1 = true := by
      rw [hWe, show applyBatch s [WOp.createMixin mainId p.1 p.2] =
        applyBOp s (.createMixin mainId p.1 p.2) from rfl]
      constructor
      · rw [getMixinData_applyBOp_createMixin, hsM]
        simp
      · rw [hasMixin_applyBOp_createMixin, hsM]
        simp
    refine ⟨hrow.2, ?_, ?_⟩
    · rw [hrow.1]
      exact hpid
    · rw [hrow.1]
      have hcov : ∀ kv ∈ p.2, skipKeys.contains kv.1 = false → hasKey p.2 kv.1 = true :=
        fun kv hkv _ => hasKey_of_mem hkv
      rw [fieldDiff_append_left hcov]
      exact fieldDiff_self hpn

/-- After committing the run-1 batch, every mixin named in the
`updateMixins` list has a row attached to the document with no `_id`
key whose proxy diff against the same payload is empty. -/
theorem updateMixins_rows (st : Store) (mainObj docu : Obj) (mainId : Val)
    (hObjId : getF mainObj "_id" = mainId) (hDocuId : getF docu "_id" = mainId) :
    ∀ L : List (String × Obj), (L.map Prod.fst).Nodup →
      (∀ p ∈ L, (p.2.map Prod.fst).Nodup ∧ hasKey p.2 "_id" = false ∧
        (hasMixin st mainId p.1 = true →
          hasKey (getMixinData st mainId p.1) "_id" = false)) →
      ∀ s : Store,
        (∀ m ∈ L.map Prod.fst,
          getMixinData s mainId m = getMixinData st mainId m ∧
            hasMixin s mainId m = hasMixin st mainId m) →
        ∀ p ∈ L,
          hasMixin (applyBatch s (updateMixins st L mainObj docu)) mainId p.1 = true ∧
          hasKey (getMixinData (applyBatch s (updateMixins st L mainObj docu)) mainId p.1)
            "_id" = false ∧
          fieldDiff (getMixinData (applyBatch s (updateMixins st L mainObj docu)) mainId p.1
            ++ mainObj) p.2 = [] := by
  intro L
  induction L with
  | nil =>
    intro _ _ s _ p hp
    simp at hp
  | cons p0 rest ih =>
    intro hnd hwf s hagree p hp
    rw [updateMixins_cons, applyBatch_append]
    simp only [List.map_cons, List.nodup_cons] at hnd
    set W0 := (if !(hasMixin st (getF mainObj "_id") p0.1) then
        [WOp.createMixin (getF docu "_id") p0.1 p0.2]
      else updateMixin st (asMixin st mainObj p0.1) p0.2 p0.1) with hW0
    have hW0name : ∀ w ∈ W0,
        (∃ i d, w = WOp.createMixin i p0.1 d) ∨ (∃ i u, w = WOp.updateMixin i p0.1 u) := by
      intro w hw
      rw [hW0] at hw
      by_cases h1 : hasMixin st (getF mainObj "_id") p0.1
      · rw [h1] at hw
        simp only [Bool.not_true, Bool.false_eq_true, if_false] at hw
        exact updateMixin_ops_shape st (asMixin st mainObj p0.1) p0.2 p0.1 w hw
      · rw [Bool.not_eq_true] at h1
        rw [h1] at hw
        simp only [Bool.not_false, if_true, List.mem_singleton] at hw
        exact Or.inl ⟨getF docu "_id", p0.2, hw⟩
    rcases List.mem_cons.mp hp with hp0 | hprest
    · subst hp0
      have hfr : ∀ w ∈ updateMixins st rest mainObj docu,
          (∃ i m' d, m' ≠ p.1 ∧ w = WOp.createMixin i m' d) ∨
            (∃ i m' u, m' ≠ p.1 ∧ w = WOp.updateMixin i m' u) := by
        intro w hw
        obtain ⟨q, hq, hsh⟩ := updateMixins_ops_name st rest mainObj docu w hw
        have hqne : q.1 ≠ p.1 := by
          intro heq
          exact hnd.1 (heq ▸ List.mem_map.mpr ⟨q, hq, rfl⟩)
        rcases hsh with ⟨i, d, hw'⟩ | ⟨i, u, hw'⟩
        · exact Or.inl ⟨i, q.1, d, hqne, hw'⟩
        · exact Or.inr ⟨i, q.1, u, hqne, hw'⟩
      have hframe := mixRow_frame mainId p.1 (updateMixins st rest mainObj docu) hfr
        (applyBatch s W0)
      have heff := mixEntry_effect st mainObj docu mainId hObjId hDocuId p
        (hwf p hp).1 (hwf p hp).2.1 (hwf p hp).2.2
        s (hagree p.1 (by simp)) W0 hW0
      rw [hframe.1, hframe.2]
      exact heff
    · have hagree2 : ∀ m ∈ rest.map Prod.fst,
          getMixinData (applyBatch s W0) mainId m = getMixinData st mainId m ∧
            hasMixin (applyBatch s W0) mainId m = hasMixin st mainId m := by
        intro m hm
        have hmne : m ≠ p0.1 := fun heq => hnd.1 (heq ▸ hm)
        have hfr0 : ∀ w ∈ W0,
            (∃ i m' d, m' ≠ m ∧ w = WOp.createMixin i m' d) ∨
              (∃ i m' u, m' ≠ m ∧ w = WOp.updateMixin i m' u) := by
          intro w hw
          rcases hW0name w hw with ⟨i, d, hw'⟩ | ⟨i, u, hw'⟩
          · exact Or.inl ⟨i, p0.1, d, fun heq => hmne heq.symm, hw'⟩
          · exact Or.inr ⟨i, p0.1, u, fun heq => hmne heq.symm, hw'⟩
        have hfr := mixRow_frame mainId m W0 hfr0 s
        have hag := hagree m (List.mem_cons_of_mem _ hm)
        exact ⟨hfr.1.trans hag.1, hfr.2.trans hag.2⟩
      exact ih hnd.2 (fun q hq => hwf q (List.mem_cons_of_mem _ hq)) (applyBatch s W0)
        hagree2 p hprest

/-- When every mixin of the list already has a row diffing to nothing
against its payload, `updateMixins` issues no operation at all. -/
theorem updateMixins_nil_of_rows (st1 : Store) (mainObj docu : Obj) (mainId : Val)
    (hObjId : getF mainObj "_id" = mainId) :
    ∀ L : List (String × Obj),
      (∀ p ∈ L, hasMixin st1 mainId p.1 = true ∧
        hasKey (getMixinData st1 mainId p.1) "_id" = false ∧
        fieldDiff (getMixinData st1 mainId p.1 ++ mainObj) p.2 = []) →
      updateMixins st1 L mainObj docu = [] := by
  intro L
  induction L with
  | nil => intro _; rfl
  | cons p rest ih =>
    intro hr
    rw [updateMixins_cons]
    obtain ⟨h1, h2, h3⟩ := hr p (List.mem_cons_self _ _)
    have hasM : asMixin st1 mainObj p.1 = getMixinData st1 mainId p.1 ++ mainObj := by
      rw [asMixin, hObjId]
    have hproxyId : getF (asMixin st1 mainObj p.1) "_id" = mainId := by
      rw [hasM, getF_append, h2]
      simp only [Bool.false_eq_true, if_false]
      exact hObjId
    rw [hObjId, h1]
    simp only [Bool.not_true, Bool.false_eq_true, if_false]
    rw [updateMixin, hproxyId, h1]
    simp only [Bool.not_true, Bool.false_eq_true, if_false]
    rw [hasM, h3, if_pos rfl, List.nil_append]
    exact ih (fun q hq => hr q (List.mem_cons_of_mem _ hq))

/-- `syncDocument` on a found document with no extra supplier documents,
no pending sub-documents and no pending attachments: the run is the
primary-document diff update followed by the mixin updates (the
conversion mixins plus the sync trait), committed. -/
theorem syncDocument_noextra (env : Env) (st : Store) (e : Obj) (res : ConvertResult) (now : Int)
    (hfail : env.failAttachFind = false) (hx1 : res.extraDocs = []) (hx2 : res.extraSync = [])
    (hx3 : res.blobs = []) :
    syncDocument env st (some e) res now =
      { store := applyBatch st
          ((updateDoc e (setF res.document "_id" (getF e "_id"))).2 ++
            updateMixins st (setMixinEntry res.mixins syncMixinName (syncMixinData res now))
              (updateDoc e (setF res.document "_id" (getF e "_id"))).1
              (setF res.document "_id" (getF e "_id"))),
        batch := (updateDoc e (setF res.document "_id" (getF e "_id"))).2 ++
            updateMixins st (setMixinEntry res.mixins syncMixinName (syncMixinData res now))
              (updateDoc e (setF res.document "_id" (getF e "_id"))).1
              (setF res.document "_id" (getF e "_id")),
        direct := [], uploads := [], committed := true } := by
  rw [syncDocument]
  rw [hx1, hx2, hx3, hfail]
  simp only [Bool.false_eq_true, if_false, List.nil_append, List.map_nil, reconcileAll_nil,
    processBlobs_nil, List.append_nil, Bool.not_eq_true]

/-- C1 (amended): running `syncDocument` a second time with an identical
conversion result, no intervening change and the same observed clock
time issues zero additional write operations, provided the conversion
result carries no extra supplier documents, no pending sub-documents and
no pending attachments, its conversion mixins are well-formed (names
distinct from each other and from the sync trait, payloads with distinct
keys and no `_id` key), and the stored mixin rows of the existing
document carry no `_id` key.  Conversion mixins themselves are
second-run idempotent: the run-1 batch leaves every mixin row — the
conversion mixins and the sync trait alike — diffing to nothing against
the same payload.  (Extra supplier documents are re-created on every
run, a later clock refreshes `syncTime` via `updateMixin`, and
sub-documents or attachments created by the first run are stored without
top-level `bitrixId`/`rawData`, which the next run then writes — each of
these breaks the unconditional claim.) -/
theorem c1_second_run_no_writes (env : Env) (st : Store) (e : Obj) (res : ConvertResult) (now : Int)
    (hfail : env.failAttachFind = false)
    (hx1 : res.extraDocs = []) (hx2 : res.extraSync = []) (hx3 : res.blobs = [])
    (hdoc : (res.document.map Prod.fst).Nodup)
    (he : e ∈ st.docs)
    (hids : (st.docs.map (fun d => getF d "_id")).Nodup)
    (hmn : ∀ p ∈ res.mixins, p.1 ≠ syncMixinName)
    (hmd : (res.mixins.map Prod.fst).Nodup)
    (hmw : ∀ p ∈ res.mixins, (p.2.map Prod.fst).Nodup ∧ hasKey p.2 "_id" = false)
    (hm0 : ∀ m ∈ syncMixinName :: res.mixins.map Prod.fst,
      hasMixin st (getF e "_id") m = true →
        hasKey (getMixinData st (getF e "_id") m) "_id" = false) :
    (syncDocument env (syncDocument env st (some e) res now).store
      (some (((syncDocument env st (some e) res now).store.docs.find?
        (fun d => getF d "_id" == getF e "_id")).getD [])) res now).batch = [] ∧
    (syncDocument env (syncDocument env st (some e) res now).store
      (some (((syncDocument env st (some e) res now).store.docs.find?
        (fun d => getF d "_id" == getF e "_id")).getD [])) res now).direct = [] ∧
    (syncDocument env (syncDocument env st (some e) res now).store
      (some (((syncDocument env st (some e) res now).store.docs.find?
        (fun d => getF d "_id" == getF e "_id")).getD [])) res now).uploads = [] := by
  have h1 := syncDocument_noextra env st e res now hfail hx1 hx2 hx3
  set mainId := getF e "_id" with hmainId
  set docu := setF res.document "_id" mainId with hdocu
  set u := fieldDiff e docu with hu
  set mv := syncMixinData res now with hmv
  have hsetL : setMixinEntry res.mixins syncMixinName mv = res.mixins ++ [(syncMixinName, mv)] :=
    setMixinEntry_notmem res.mixins syncMixinName mv hmn
  set L := res.mixins ++ [(syncMixinName, mv)] with hL
  set wMain := (updateDoc e docu).2 with hwMain
  -- basic facts
  have hdocuId : getF docu "_id" = mainId := by
    rw [hdocu, getF_setF]
    simp
  have hdocuN : (docu.map Prod.fst).Nodup := nodup_keys_setF _ _ hdoc
  have huId : hasKey u "_id" = false := fieldDiff_skip_key (by decide)
  have hmvKeys : mv.map Prod.fst = ["type", "bitrixId", "rawData", "syncTime"] := by
    rw [hmv, syncMixinData]
    rfl
  have hmvKeysN : (mv.map Prod.fst).Nodup := by
    rw [hmvKeys]
    decide
  have hmvId : hasKey mv "_id" = false := by
    rw [hmv, syncMixinData]
    rfl
  have hmainObj : (updateDoc e docu).1 = applyUpdate e u := updateDoc_fst e docu
  have hmainObjId : getF (applyUpdate e u) "_id" = mainId :=
    getF_applyUpdate_not_hasKey huId
  rw [hsetL, hmainObj] at h1
  set wMix := updateMixins st L (applyUpdate e u) docu with hwMix
  set st1 := applyBatch st (wMain ++ wMix) with hst1
  -- store after run 1
  have hsplit : st1 = applyBatch (applyBatch st wMain) wMix := by
    rw [hst1, applyBatch_append]
  have hmixMain : (applyBatch st wMain).mixins = st.mixins :=
    mixins_applyBatch_updateDoc st e docu
  have hshape : ∀ w ∈ wMix,
      (∃ i m d, w = WOp.createMixin i m d) ∨ (∃ i m u', w = WOp.updateMixin i m u') := by
    rw [hwMix]
    exact updateMixins_ops_shape st L (applyUpdate e u) docu
  have hdocs1 : st1.docs = (applyBatch st wMain).docs := by
    rw [hsplit]
    exact docs_applyBatch_mixinops wMix hshape (applyBatch st wMain)
  -- the document found by the second run
  have hfound : ((st1.docs.find? (fun d => getF d "_id" == getF e "_id")).getD []) =
      applyUpdate e u := by
    rw [hdocs1]
    by_cases hue : u = []
    · rw [hwMain, updateDoc_snd_nil (hu ▸ hue)]
      have : (st.docs.find? (fun d => getF d "_id" == getF e "_id")) = some e := by
        exact find?_unique (fun d => getF d "_id") hids he
      rw [show applyBatch st [] = st from rfl, this]
      rw [hue]
      rfl
    · rw [hwMain, updateDoc_snd (hu ▸ hue)]
      have hone : applyBatch st [WOp.update (getF e "_id") (fieldDiff e docu)] =
          applyBOp st (.update (getF e "_id") (fieldDiff e docu)) := rfl
      rw [hone]
      simp only [applyBOp]
      rw [find?_map_pres (fun d => if getF d "_id" == getF e "_id" then
          applyUpdate d (fieldDiff e docu) else d)
        (fun d => getF d "_id" == getF e "_id") (by
          intro d
          by_cases hd : (getF d "_id" == getF e "_id") = true
          · simp only [hd, if_true]
            have hpres : getF (applyUpdate d (fieldDiff e docu)) "_id" = getF d "_id" :=
              getF_applyUpdate_not_hasKey (fieldDiff_skip_key (by decide))
            rw [hpres, hd]
          · simp only [hd, Bool.false_eq_true, if_false])]
      rw [find?_unique (fun d => getF d "_id") hids he]
      simp only [Option.map_some', Option.getD_some]
      rw [if_pos (by simp), hu]
  -- run-2 primary document facts
  have hdiff2 : fieldDiff (applyUpdate e u) docu = [] := by
    rw [hu]
    exact fieldDiff_applyUpdate e docu hdocuN
  have hmainObj2 : (updateDoc (applyUpdate e u) docu).1 = applyUpdate e u := by
    rw [updateDoc_fst, hdiff2]
    rfl
  -- the mixin rows of the store after run 1
  have hLnd : (L.map Prod.fst).Nodup := by
    rw [hL, List.map_append]
    refine List.Nodup.append hmd (by simp) ?_
    intro a ha hb
    simp only [List.map_cons, List.map_nil, List.mem_singleton] at hb
    obtain ⟨q, hq, hqa⟩ := List.mem_map.mp ha
    exact hmn q hq (hqa.trans hb)
  have hLwf : ∀ p ∈ L, (p.2.map Prod.fst).Nodup ∧ hasKey p.2 "_id" = false ∧
      (hasMixin st mainId p.1 = true →
        hasKey (getMixinData st mainId p.1) "_id" = false) := by
    intro p hp
    rw [hL] at hp
    rcases List.mem_append.mp hp with h | h
    · exact ⟨(hmw p h).1, (hmw p h).2,
        hm0 p.1 (List.mem_cons_of_mem _ (List.mem_map.mpr ⟨p, h, rfl⟩))⟩
    · simp only [List.mem_singleton] at h
      subst h
      exact ⟨hmvKeysN, hmvId, hm0 syncMixinName (List.mem_cons_self _ _)⟩
  have hagree0 : ∀ m ∈ L.map Prod.fst,
      getMixinData (applyBatch st wMain) mainId m = getMixinData st mainId m ∧
        hasMixin (applyBatch st wMain) mainId m = hasMixin st mainId m :=
    fun m _ => ⟨getMixinData_congr hmixMain mainId m, hasMixin_congr hmixMain mainId m⟩
  have hrows0 := updateMixins_rows st (applyUpdate e u) docu mainId hmainObjId hdocuId
    L hLnd hLwf (applyBatch st wMain) hagree0
  rw [← hwMix, ← hsplit] at hrows0
  have hnil : updateMixins st1 L (applyUpdate e u) docu = [] :=
    updateMixins_nil_of_rows st1 (applyUpdate e u) docu mainId hmainObjId L hrows0
  -- second run
  have h2 := syncDocument_noextra env st1 (applyUpdate e u) res now hfail hx1 hx2 hx3
  rw [hmainObjId] at h2
  rw [← hdocu] at h2
  rw [← hmv] at h2
  rw [hsetL] at h2
  rw [updateDoc_snd_nil hdiff2, hmainObj2, hnil] at h2
  rw [List.nil_append] at h2
  rw [h1]
  dsimp only
  rw [hfound, h2]
  exact ⟨rfl, rfl, rfl⟩

/-- A conversion result identical across runs that carries one extra
supplier document (a tag element). -/
def exResTag : ConvertResult :=
  { document := exDocRes, mixins := [],
    extraDocs := [[("_id", Val.vstr "TAG1"), ("_class", Val.vstr "tags:class:TagElement"),
      ("space", Val.vstr "S"), ("title", Val.vstr "tag")]],
    extraSync := [], rawData := Val.vstr "raw", blobs := [] }

/-- C1 counterexample: with an identical conversion result, no
intervening remote or local change and even the same clock value, the
second `syncDocument` run still issues a write — the extra supplier
document is re-created unconditionally on every run (sync.ts lines
121-130). -/
theorem c1_counterexample :
    (syncDocument exEnvOk
      (syncDocument exEnvOk exStore (some exMain) exResTag 7).store
      (some (((syncDocument exEnvOk exStore (some exMain) exResTag 7).store.docs.find?
        (fun d => getF d "_id" == Val.vstr "M")).getD []))
      exResTag 7).batch =
      [WOp.createDoc (Val.vstr "TAG1") (Val.vstr "tags:class:TagElement") (Val.vstr "S")
        (Val.vint 5) (Val.vstr "u")
        [("_id", Val.vstr "TAG1"), ("_class", Val.vstr "tags:class:TagElement"),
         ("space", Val.vstr "S"), ("title", Val.vstr "tag")]] ∧
    (syncDocument exEnvOk
      (syncDocument exEnvOk exStore (some exMain) exResTag 7).store
      (some (((syncDocument exEnvOk exStore (some exMain) exResTag 7).store.docs.find?
        (fun d => getF d "_id" == Val.vstr "M")).getD []))
      exResTag 7).batch ≠ [] := by
  decide

/-- A conversion result identical across runs that carries one
conversion mixin payload besides the sync trait. -/
def exResMix : ConvertResult :=
  { document := exDocRes,
    mixins := [("contact:mixin:Foo", [("nick", Val.vstr "bee")])],
    extraDocs := [], extraSync := [], rawData := Val.vstr "raw", blobs := [] }

/-- Witness for `c1_second_run_no_writes` on the concrete store and a
conversion result carrying a conversion mixin. -/
theorem c1_second_run_no_writes_witness :
    (exEnvOk.failAttachFind = false ∧ exResMix.extraDocs = [] ∧ exResMix.extraSync = [] ∧
      exResMix.blobs = [] ∧
      (exResMix.document.map Prod.fst).Nodup ∧ exMain ∈ exStore.docs ∧
      (exStore.docs.map (fun d => getF d "_id")).Nodup ∧
      (∀ p ∈ exResMix.mixins, p.1 ≠ syncMixinName) ∧
      (exResMix.mixins.map Prod.fst).Nodup ∧
      (∀ p ∈ exResMix.mixins, (p.2.map Prod.fst).Nodup ∧ hasKey p.2 "_id" = false) ∧
      (∀ m ∈ syncMixinName :: exResMix.mixins.map Prod.fst,
        hasMixin exStore (getF exMain "_id") m = true →
          hasKey (getMixinData exStore (getF exMain "_id") m) "_id" = false)) ∧
    ((syncDocument exEnvOk (syncDocument exEnvOk exStore (some exMain) exResMix 7).store
      (some (((syncDocument exEnvOk exStore (some exMain) exResMix 7).store.docs.find?
        (fun d => getF d "_id" == getF exMain "_id")).getD [])) exResMix 7).batch = [] ∧
    (syncDocument exEnvOk (syncDocument exEnvOk exStore (some exMain) exResMix 7).store
      (some (((syncDocument exEnvOk exStore (some exMain) exResMix 7).store.docs.find?
        (fun d => getF d "_id" == getF exMain "_id")).getD [])) exResMix 7).direct = [] ∧
    (syncDocument exEnvOk (syncDocument exEnvOk exStore (some exMain) exResMix 7).store
      (some (((syncDocument exEnvOk exStore (some exMain) exResMix 7).store.docs.find?
        (fun d => getF d "_id" == getF exMain "_id")).getD [])) exResMix 7).uploads = []) :=
  ⟨⟨rfl, rfl, rfl, rfl, by decide, by decide, by decide, by decide, by decide, by decide,
      by decide⟩,
    c1_second_run_no_writes exEnvOk exStore exMain exResMix 7 rfl rfl rfl rfl
      (by decide) (by decide) (by decide) (by decide) (by decide) (by decide) (by decide)⟩
